import Mathlib

/-!
Verification of the deterministic schema-matching and row-alignment engine
of the table-unionizer repository (src/services/matchingService.ts and
src/services/parserService.ts), as a shallow embedding in Lean 4.

JavaScript numbers are modelled by exact rationals.  Because the kernel
must be able to evaluate every definition on concrete inputs, the
embedding uses its own rational type `Q` (numerator, positive
denominator, normalised with `Nat.gcd` after every operation) instead of
Mathlib's `ℚ`, whose arithmetic does not reduce inside the kernel.  A
homomorphism `Q.toRat : Q → ℚ` transports every operation to `ℚ`, so the
ordered-field reasoning in the proofs happens over `ℚ` while concrete
runs evaluate by `decide`.
-/

/-- Rational numbers with a kernel-computable carrier: numerator, positive
denominator.  All arithmetic goes through `Q.mk0`, which normalises by the
gcd, so results of arithmetic are in lowest terms. -/
structure Q where
  num : ℤ
  den : ℕ
  den_pos : 0 < den

/-- Build the reduced fraction n / d for a positive denominator. -/
def Q.normN (n : ℤ) (d : ℕ) (h : 0 < d) : Q :=
  let g := Nat.gcd n.natAbs d
  have hg : 0 < g := Nat.gcd_pos_of_pos_right _ h
  ⟨n / (g : ℤ), d / g, Nat.div_pos (Nat.le_of_dvd h (Nat.gcd_dvd_right _ _)) hg⟩

/-- Build n / d, mapping a zero denominator to 0 (the convention of `ℚ`;
the engine never divides by zero on its guarded paths). -/
def Q.mk0 (n : ℤ) (d : ℕ) : Q :=
  if h : 0 < d then Q.normN n d h else ⟨0, 1, Nat.one_pos⟩

/-- Build n / d from two integers, moving the sign into the numerator. -/
def Q.mkI (n d : ℤ) : Q :=
  if d < 0 then Q.mk0 (-n) (-d).toNat else Q.mk0 n d.toNat

instance : DecidableEq Q := fun a b =>
  decidable_of_iff (a.num = b.num ∧ a.den = b.den)
    ⟨fun ⟨h1, h2⟩ => by cases a; cases b; simp_all, fun h => by cases h; exact ⟨rfl, rfl⟩⟩

def Q.add (a b : Q) : Q := Q.mk0 (a.num * b.den + b.num * a.den) (a.den * b.den)

def Q.sub (a b : Q) : Q := Q.mk0 (a.num * b.den - b.num * a.den) (a.den * b.den)

def Q.mul (a b : Q) : Q := Q.mk0 (a.num * b.num) (a.den * b.den)

def Q.div (a b : Q) : Q := Q.mkI (a.num * b.den) (a.den * b.num)

/-- Absolute value, modelling Math.abs. -/
def Q.abs (a : Q) : Q := ⟨|a.num|, a.den, a.den_pos⟩

/-- Embed a natural number. -/
def Q.ofN (n : ℕ) : Q := ⟨n, 1, Nat.one_pos⟩

/-- Embed an integer. -/
def Q.ofZ (n : ℤ) : Q := ⟨n, 1, Nat.one_pos⟩

instance : Add Q := ⟨Q.add⟩

instance : Sub Q := ⟨Q.sub⟩

instance : Mul Q := ⟨Q.mul⟩

instance : Div Q := ⟨Q.div⟩

instance : LE Q := ⟨fun a b => a.num * b.den ≤ b.num * a.den⟩

instance : LT Q := ⟨fun a b => a.num * b.den < b.num * a.den⟩

instance (a b : Q) : Decidable (a ≤ b) := Int.decLe _ _

instance (a b : Q) : Decidable (a < b) := Int.decLt _ _

instance (n : ℕ) : OfNat Q n := ⟨Q.ofN n⟩

instance : OfScientific Q :=
  ⟨fun m b e => if b then Q.mk0 m (10 ^ e) else Q.ofN (m * 10 ^ e)⟩

/-- Math.min on two numbers. -/
instance : Min Q := ⟨fun a b => if a ≤ b then a else b⟩

/-- Math.max on two numbers. -/
instance : Max Q := ⟨fun a b => if a ≤ b then b else a⟩

/-- Semantics of `Q` in Mathlib's rationals; every proof about the engine's
arithmetic is carried out on this side of the homomorphism. -/
def Q.toRat (q : Q) : ℚ := (q.num : ℚ) / (q.den : ℚ)


namespace TU
/-!
The value model.  Sample values in the repository are arbitrary JS scalars
(`any[]`); the engine only ever filters them against null / undefined / the
empty string, collects them into Sets, converts them with `Number(...)` and
compares them for equality.  `JSValue.null` models both null and undefined.
-/

/-- A scalar sample value as the engine sees it. -/
inductive JSValue where
  | null : JSValue
  | str : String → JSValue
  | num : Q → JSValue
  | boolV : Bool → JSValue
deriving DecidableEq

/-- The inferred column DataType of types.ts
(string | number | boolean | date | mixed). -/
inductive DataType where
  | string : DataType
  | number : DataType
  | boolean : DataType
  | date : DataType
  | mixed : DataType
deriving DecidableEq

def Q.neg (a : Q) : Q := ⟨-a.num, a.den, a.den_pos⟩

instance : Neg Q := ⟨Q.neg⟩

/-- Numeric value of a digit string (most significant first). -/
def digitsVal (cs : List Char) : ℕ :=
  cs.foldl (fun acc c => acc * 10 + (c.toNat - '0'.toNat)) 0

/-- Model of the JS `Number(string)` conversion on the decimal fragment the
data sets use: optional surrounding whitespace, optional sign, digits with an
optional fractional part; the empty / all-whitespace string converts to 0 and
anything else (exponents, hex, words) to NaN, reported as `none`. -/
def parseDecimal (s : String) : Option Q :=
  let cs := ((s.toList.dropWhile Char.isWhitespace).reverse.dropWhile Char.isWhitespace).reverse
  if cs.isEmpty then some 0
  else
    let signed : Bool × List Char :=
      match cs with
      | '-' :: rest => (true, rest)
      | '+' :: rest => (false, rest)
      | other => (false, other)
    let intPart := signed.2.takeWhile Char.isDigit
    let rest := signed.2.dropWhile Char.isDigit
    let value : Option Q :=
      match rest with
      | [] => if intPart.isEmpty then none else some (Q.ofN (digitsVal intPart))
      | '.' :: frac =>
          if frac.all Char.isDigit ∧ ¬(intPart.isEmpty ∧ frac.isEmpty) then
            some (Q.mk0 (digitsVal intPart * 10 ^ frac.length + digitsVal frac) (10 ^ frac.length))
          else none
      | _ => none
    value.map (fun q => if signed.1 then -q else q)

/-- The JS `Number(x)` conversion; `none` is NaN.  `Number(null)` is 0, but the
engine filters null-ish values out before ever converting them. -/
def jsNumber : JSValue → Option Q
  | JSValue.null => some 0
  | JSValue.str s => parseDecimal s
  | JSValue.num q => some q
  | JSValue.boolV b => some (if b then 1 else 0)

/-- Name normalisation of createColumnProfile:
`originalName.toLowerCase().replace(/[\s_-]/g, '')`. -/
def cleanName (s : String) : String :=
  String.mk ((s.toList.map Char.toLower).filter
    (fun c => ¬(c.isWhitespace ∨ c = '_' ∨ c = '-')))

/-- Suffix stripping of createColumnProfile:
`cleanedName.replace(/id$|pk$|key$|num$|code$|date$|name$|at$|by$/, '')`.
The regex alternatives are all anchored at the end, so the engine removes the
match that starts earliest, which is the longest suffix among the
alternatives; at a fixed length at most one alternative can match, so trying
the lengths in decreasing order reproduces the regex exactly. -/
def strEndsWith (s suffix : String) : Bool :=
  suffix.toList.isSuffixOf s.toList

/-- `s` with its last `n` characters removed. -/
def strDropRight (s : String) (n : ℕ) : String :=
  String.mk (s.toList.take (s.toList.length - n))

def stripSuffix (s : String) : String :=
  if strEndsWith s "code" then strDropRight s 4
  else if strEndsWith s "date" then strDropRight s 4
  else if strEndsWith s "name" then strDropRight s 4
  else if strEndsWith s "key" then strDropRight s 3
  else if strEndsWith s "num" then strDropRight s 3
  else if strEndsWith s "id" then strDropRight s 2
  else if strEndsWith s "pk" then strDropRight s 2
  else if strEndsWith s "at" then strDropRight s 2
  else if strEndsWith s "by" then strDropRight s 2
  else s

/-!
The `levenshtein` helper of matchingService.ts (the identical copy in
parserService.ts is shared).  The source fills the Wagner-Fischer matrix row
by row: row 0 is `0..a.length`, and row j is computed from row j-1 with
`matrix[j][i] = min(matrix[j-1][i] + 1, matrix[j][i-1] + 1,
matrix[j-1][i-1] + cost)` where cost compients a[i-1] with b[j-1].  The
embedding keeps that row-by-row evaluation order so that the kernel can run
it in linear time per row.
-/

/-- One row update: given the cell to the left (`cur`), the remaining
characters of `a` and the tail of the previous row starting at the diagonal
cell, produce the rest of the current row. -/
def fillRowAux (bj : Char) : ℕ → List Char → List ℕ → List ℕ
  | _, [], _ => []
  | _, _ :: _, [] => []
  | _, _ :: _, [_] => []
  | cur, ai :: arest, pPrev :: pNext :: prest =>
      let v := min (pNext + 1) (min (cur + 1) (pPrev + (if ai = bj then 0 else 1)))
      v :: fillRowAux bj v arest (pNext :: prest)

/-- Row j of the matrix from row j-1; the state carries (j-1, row j-1). -/
def levRowStep (a : List Char) (st : ℕ × List ℕ) (bj : Char) : ℕ × List ℕ :=
  let j1 := st.1 + 1
  (j1, j1 :: fillRowAux bj j1 a st.2)

/-- The matrix entry `matrix[b.length][a.length]` of the source. -/
def levenshteinL (a b : List Char) : ℕ :=
  (b.foldl (levRowStep a) (0, List.range (a.length + 1))).2.getD a.length 0

/-- `levenshtein(a, b)` of matchingService.ts / parserService.ts. -/
def levenshtein (s1 s2 : String) : ℕ := levenshteinL s1.toList s2.toList

/-- Modelled from the spec: the classic Levenshtein edit distance
(single-character insert / delete / substitute, cost 1 per operation),
written as the textbook recurrence on final characters.  This definition
follows the spec's words, to be compared with the `levenshtein`
implementation above. -/
def levClassic (xs ys : List Char) : ℕ :=
  if hx : xs = [] then ys.length
  else if hy : ys = [] then xs.length
  else
    min (levClassic xs.dropLast ys + 1)
      (min (levClassic xs ys.dropLast + 1)
        (levClassic xs.dropLast ys.dropLast + (if xs.getLast hx = ys.getLast hy then 0 else 1)))
termination_by xs.length + ys.length
decreasing_by
  · have h1 : 0 < xs.length := List.length_pos.mpr hx
    simp [List.length_dropLast]
    omega
  · have h1 : 0 < ys.length := List.length_pos.mpr hy
    simp [List.length_dropLast]
    omega
  · have h1 : 0 < xs.length := List.length_pos.mpr hx
    have h2 : 0 < ys.length := List.length_pos.mpr hy
    simp [List.length_dropLast]
    omega

/-- `nameSimilarity(name1, name2)` of matchingService.ts / parserService.ts:
`maxLength === 0 ? 1 : 1 - distance / maxLength`. -/
def nameSimilarity (name1 name2 : String) : Q :=
  let distance := levenshtein name1 name2
  let maxLength := max name1.length name2.length
  if maxLength = 0 then 1 else (1 : Q) - Q.ofN distance / Q.ofN maxLength

/-!
Profiling and feature engineering (matchingService.ts lines 6-66).
-/

/-- ColumnData of types.ts (the fields generateMatches reads). -/
structure ColumnData where
  fileId : String
  fileName : String
  originalName : String
  sampleData : List JSValue
  dataType : DataType
deriving DecidableEq

/-- Structural binary search for the floor square root, used to model
Math.sqrt on ℕ; the fuel argument only bounds the bisection depth, which
never exceeds it. -/
def sqrtAux (n : ℕ) : ℕ → ℕ → ℕ → ℕ
  | 0, lo, _ => lo
  | fuel + 1, lo, hi =>
      if hi ≤ lo then lo
      else
        let mid := (lo + hi + 1) / 2
        if mid * mid ≤ n then sqrtAux n fuel mid hi else sqrtAux n fuel lo (mid - 1)

/-- Floor square root of a natural number (kernel-computable). -/
def natSqrt (n : ℕ) : ℕ := sqrtAux n (n + 1) 0 n

/-- Model of Math.sqrt on a non-negative rational: the rational whose
numerator and denominator are the floor square roots of the operand's
(exact whenever the operand is a square of a rational; the engine only
feeds it variances, and no claim depends on the rounding). -/
def jsSqrt (q : Q) : Q := Q.mk0 (natSqrt q.num.toNat) (natSqrt q.den)

/-- Number of decimal digits, with enough fuel to consume the number. -/
def digitsAux : ℕ → ℕ → ℕ
  | 0, _ => 0
  | fuel + 1, n => if n < 10 then 1 else digitsAux fuel (n / 10) + 1

/-- Decimal digit count of a natural number. -/
def digitCount (n : ℕ) : ℕ := digitsAux (n + 1) n

/-- Model of `Math.floor(Math.log10(q))` for a positive rational q, computed
exactly: for q ≥ 1 it is the digit count of ⌊q⌋ minus one, and for q < 1 it
is minus the least j with 10 ^ j ≥ 1 / q (0 is returned for q ≤ 0, which the
caller never passes). -/
def jsLog10Floor (q : Q) : ℤ :=
  let a := q.num.toNat
  let b := q.den
  if a = 0 then 0
  else if b ≤ a then (digitCount (a / b) : ℤ) - 1
  else
    let m := b / a
    let dm := digitCount m
    if b ≤ 10 ^ (dm - 1) * a then -((dm - 1 : ℕ) : ℤ) else -(dm : ℤ)

/-- NumericStats of the ColumnProfile interface. -/
structure NumericStats where
  mean : Q
  stddev : Q
  min : Q
  max : Q
  range : Q
  orderOfMagnitude : ℤ
deriving DecidableEq

/-- `getNumericStats(data)` (matchingService.ts lines 27-42): convert the
samples with Number, drop NaN, and require at least two numeric values;
stddev is the population standard deviation and orderOfMagnitude is
`Math.floor(Math.log10(Math.abs(mean) || 1))`. -/
def getNumericStats (data : List JSValue) : Option NumericStats :=
  let numericData := data.filterMap jsNumber
  if numericData.length < 2 then none
  else
    let n := Q.ofN numericData.length
    let sum := numericData.foldl (fun a b => a + b) 0
    let mean := sum / n
    let minV := numericData.foldl (fun a b => min a b) (numericData.headD 0)
    let maxV := numericData.foldl (fun a b => max a b) (numericData.headD 0)
    let stddev := jsSqrt (((numericData.map (fun x => (x - mean) * (x - mean))).foldl
      (fun a b => a + b) 0) / n)
    some
      { mean := mean
        stddev := stddev
        min := minV
        max := maxV
        range := maxV - minV
        orderOfMagnitude := jsLog10Floor (if mean.abs = 0 then 1 else mean.abs) }

/-- ColumnProfile of matchingService.ts. -/
structure ColumnProfile where
  source : ColumnData
  uniquenessRatio : Q
  valueSet : List JSValue
  cleanedName : String
  baseName : String
  numericStats : Option NumericStats
deriving DecidableEq

/-- `createColumnProfile(column)` (matchingService.ts lines 45-66).  The
value Set is modelled as the duplicate-free list of the filtered samples;
only its size and membership are ever used. -/
def createColumnProfile (column : ColumnData) : ColumnProfile :=
  let sampleData := column.sampleData.filter
    (fun d => ¬(d = JSValue.null ∨ d = JSValue.str ""))
  let nonNullCount := if sampleData.length = 0 then 1 else sampleData.length
  let valueSet := sampleData.dedup
  let cleanedName := cleanName column.originalName
  let baseName := stripSuffix cleanedName
  { source := column
    uniquenessRatio := Q.ofN valueSet.length / Q.ofN nonNullCount
    valueSet := valueSet
    cleanedName := cleanedName
    baseName := baseName
    numericStats :=
      if column.dataType = DataType.number ∧ 1 < sampleData.length then
        getNumericStats sampleData
      else none }

/-- `jaccardSimilarity(set1, set2)` (matchingService.ts lines 89-94). -/
def jaccardSimilarity (set1 set2 : List JSValue) : Q :=
  if set1.length = 0 ∨ set2.length = 0 then 0
  else
    let intersectionSize := ((set1.filter (fun x => x ∈ set2)).dedup).length
    let unionSize := set1.length + set2.length - intersectionSize
    if unionSize = 0 then 1
    else Q.ofN intersectionSize / Q.ofN unionSize

/-- `calculateConfidence(prof1, prof2)` (matchingService.ts lines 99-144):
the data-type hard gate, then the boolean / high-uniqueness / numeric /
categorical / fallback rules in source order. -/
def calculateConfidence (prof1 prof2 : ColumnProfile) : Q :=
  if prof1.source.dataType ≠ prof2.source.dataType then 0
  else
    let baseNameSim := nameSimilarity prof1.baseName prof2.baseName
    let fullNameSim := nameSimilarity prof1.cleanedName prof2.cleanedName
    let nameSim := max baseNameSim fullNameSim
    if prof1.source.dataType = DataType.boolean then
      let contentSim := jaccardSimilarity prof1.valueSet prof2.valueSet
      nameSim * 0.6 + contentSim * 0.4
    else if 0.9 < prof1.uniquenessRatio ∧ 0.9 < prof2.uniquenessRatio then
      nameSim * 0.95
    else
      match prof1.numericStats, prof2.numericStats with
      | some s1, some s2 =>
          let scaleSimilarity :=
            (1 : Q) - min 1 (Q.ofN (s1.orderOfMagnitude - s2.orderOfMagnitude).natAbs / 5)
          if scaleSimilarity < 0.5 then nameSim * 0.2
          else
            let cv1 := if s1.mean ≠ 0 then s1.stddev / s1.mean else 0
            let cv2 := if s2.mean ≠ 0 then s2.stddev / s2.mean else 0
            let cvSimilarity := (1 : Q) - min 1 (cv1 - cv2).abs
            nameSim * 0.5 + cvSimilarity * 0.3 + scaleSimilarity * 0.2
      | _, _ =>
          let contentSim := jaccardSimilarity prof1.valueSet prof2.valueSet
          if prof1.uniquenessRatio < 0.5 ∧ prof2.uniquenessRatio < 0.5 ∧ 0.1 < contentSim then
            contentSim * 0.7 + nameSim * 0.3
          else nameSim * 0.7 + contentSim * 0.3

/-!
The clustering pipeline, `generateMatches` (matchingService.ts lines
148-262).  Column keys are the strings `fileId + "-" + originalName`;
canonical pair keys join two column keys with "|" after sorting them the
way `Array.prototype.sort()` sorts strings.  JS Maps are modelled as
insertion-ordered association lists, and the breadth-first `while` loop as
a fuel-indexed recursion whose fuel provably dominates the
number of iterations, so the loop always runs to completion.
-/

inductive MatchStatus where
  | PENDING : MatchStatus
  | CONFIRMED : MatchStatus
  | DENIED : MatchStatus
deriving DecidableEq

inductive MatchSource where
  | PROGRAMMATIC : MatchSource
  | AI : MatchSource
  | MANUAL : MatchSource
deriving DecidableEq

/-- ColumnInMatch of types.ts. -/
structure ColumnInMatch where
  fileId : String
  fileName : String
  columnName : String
deriving DecidableEq

/-- Match of types.ts (the fields generateMatches sets). -/
structure Match where
  id : String
  columns : List ColumnInMatch
  programmaticConfidence : Q
  status : MatchStatus
  source : MatchSource
  finalName : String
deriving DecidableEq

/-- UploadedFile of types.ts (the fields generateMatches reads). -/
structure UploadedFile where
  id : String
  name : String
  columns : List ColumnData
deriving DecidableEq

/-- The result record of generateMatches. -/
structure MatchResult where
  matches' : List Match
  unmatched : List ColumnData
deriving DecidableEq

/-- The key `fileId-originalName` a column is filed under. -/
def colKey (c : ColumnData) : String := c.fileId ++ "-" ++ c.originalName

/-- The key of a profile's source column. -/
def profKey (p : ColumnProfile) : String := colKey p.source

/-- Lexicographic comparison of char lists by code point, modelling how
`Array.prototype.sort()` compares two strings. -/
def listCharLt : List Char → List Char → Bool
  | [], [] => false
  | [], _ :: _ => true
  | _ :: _, [] => false
  | c1 :: r1, c2 :: r2 =>
      if c1.val < c2.val then true
      else if c2.val < c1.val then false
      else listCharLt r1 r2

/-- String order used by `[prof1Key, prof2Key].sort()`. -/
def strLe (a b : String) : Bool := !(listCharLt b.toList a.toList)

/-- The canonical undirected pair key `[k1, k2].sort().join('|')`. -/
def canonicalKey (k1 k2 : String) : String :=
  if strLe k1 k2 then k1 ++ "|" ++ k2 else k2 ++ "|" ++ k1

/-- Split a char list at every '|', modelling String.prototype.split('|'). -/
def splitOnPipe : List Char → List (List Char)
  | [] => [[]]
  | c :: rest =>
      if c = '|' then [] :: splitOnPipe rest
      else
        match splitOnPipe rest with
        | [] => [[c]]
        | g :: gs => (c :: g) :: gs

/-- The destructuring `const [key1, key2] = pairKey.split('|')`.  A canonical
pair key always contains a '|', so the one-component case (where JS would
yield undefined) is mapped to the empty string. -/
def splitPair (s : String) : String × String :=
  match (splitOnPipe s.toList).map String.mk with
  | [] => ("", "")
  | [a] => (a, "")
  | a :: b :: _ => (a, b)

/-- The inner loop of step 1 of generateMatches (lines 163-178): the single
best-scoring cross-file partner of profile i, starting from score 0 and
keeping the first maximum (updates only on a strictly greater score). -/
def findBestStep (prof1 : ColumnProfile) (i : ℕ) (best : String × Q)
    (jp : ℕ × ColumnProfile) : String × Q :=
  if i = jp.1 then best
  else if prof1.source.fileId = jp.2.source.fileId then best
  else
    let score := calculateConfidence prof1 jp.2
    if best.2 < score then (profKey jp.2, score) else best

def findBest (profilesE : List (ℕ × ColumnProfile)) (i : ℕ) (prof1 : ColumnProfile) :
    String × Q :=
  profilesE.foldl (findBestStep prof1 i) ("", 0)

/-- Step 1 of generateMatches (lines 160-189): the insertion-ordered map of
canonical pair keys to accepted best pairs (score strictly above 0.65),
first writer wins. -/
def mkBestPairsStep (profilesE : List (ℕ × ColumnProfile))
    (bps : List (String × (String × Q))) (ip : ℕ × ColumnProfile) :
    List (String × (String × Q)) :=
  let best := findBest profilesE ip.1 ip.2
  if (0.65 : Q) < best.2 then
    let ck := canonicalKey (profKey ip.2) best.1
    if bps.any (fun kv => kv.1 = ck) then bps else bps ++ [(ck, best)]
  else bps

def mkBestPairs (profiles : List ColumnProfile) : List (String × (String × Q)) :=
  profiles.enum.foldl (mkBestPairsStep profiles.enum) []

/-- The scan over `bestPairs.keys()` inside the while loop (lines 210-220):
enqueue and mark visited every unvisited neighbour of `cur`, in pair order,
first the `p1 = cur` test and then the `p2 = cur` test.  The state is
(queue, visited). -/
def visitStep (cur : String) (st : List String × List String) (pk : String) :
    List String × List String :=
  let p := splitPair pk
  let st1 :=
    if p.1 = cur ∧ ¬ p.2 ∈ st.2 then (st.1 ++ [p.2], st.2 ++ [p.2]) else st
  if p.2 = cur ∧ ¬ p.1 ∈ st1.2 then (st1.1 ++ [p.1], st1.2 ++ [p.1]) else st1

def visitPairs (pairKeys : List String) (cur : String)
    (queue visited : List String) : List String × List String :=
  pairKeys.foldl (visitStep cur) (queue, visited)

/-- The while loop of step 2 (lines 206-221), returning (cluster, visited).
`currentCluster` is a JS Set, so a key is recorded once, in first-add order.
The fuel only bounds the number of iterations; the bfsLoop lemmas below show
the fuel buildClusters passes never runs out, so the zero-fuel case is
unreachable and the function is exactly the source's loop. -/
def bfsLoop (pairKeys : List String) :
    ℕ → List String → List String → List String → List String × List String
  | 0, _, visited, cluster => (cluster, visited)
  | _ + 1, [], visited, cluster => (cluster, visited)
  | fuel + 1, cur :: queue, visited, cluster =>
      let st := visitPairs pairKeys cur queue visited
      bfsLoop pairKeys fuel st.1 st.2
        (if cur ∈ cluster then cluster else cluster ++ [cur])

/-- One outer-loop step of step 2 (lines 196-223): skip a pair with a
visited endpoint, otherwise run the while loop from its two endpoints.  The
fuel 4·pairs + 3 strictly dominates the loop's iteration count (shown in
the bfsLoop lemmas below), so the loop always runs to completion. -/
def clusterStep (pairKeys : List String)
    (st : List String × List (String × List String)) (pk : String) :
    List String × List (String × List String) :=
  let p := splitPair pk
  if p.1 ∈ st.1 ∨ p.2 ∈ st.1 then st
  else
    let r := bfsLoop pairKeys (4 * pairKeys.length + 3) [p.1, p.2]
      (st.1 ++ [p.1, p.2]) []
    (r.2, st.2 ++ [(p.1, r.1)])

/-- Step 2 of generateMatches (lines 191-223): clusters as an
insertion-ordered map keyed by the founding pair's first key. -/
def buildClusters (pairKeys : List String) : List (String × List String) :=
  (pairKeys.foldl (clusterStep pairKeys) ([], [])).2

def dummyColumn : ColumnData :=
  { fileId := "", fileName := "", originalName := "", sampleData := [], dataType := DataType.string }

/-- `profileMap.get(key)!`: a JS Map built from a list keeps the last entry
written under a key; the non-null assertion is modelled by a default (never
reached on pipe-free keys). -/
def lookupProfile (profiles : List ColumnProfile) (k : String) : ColumnProfile :=
  (profiles.reverse.find? (fun p => profKey p = k)).getD (createColumnProfile dummyColumn)

/-- `findMostDescriptiveName(cluster)` (lines 148-153): reduce with the first
profile's original name as the initial value, keeping the longer name. -/
def findMostDescriptiveName (cluster : List ColumnProfile) : String :=
  cluster.foldl
    (fun best current =>
      if best.length < current.source.originalName.length then current.source.originalName
      else best)
    ((cluster.headD (createColumnProfile dummyColumn)).source.originalName)

/-- The totalScore / pairCount accumulation of step 3 (lines 230-238). -/
def clusterScore (bps : List (String × (String × Q))) (clusterKeys : List String) : Q × ℕ :=
  bps.foldl
    (fun st kv =>
      let p := splitPair kv.1
      if p.1 ∈ clusterKeys ∧ p.2 ∈ clusterKeys then (st.1 + kv.2.2, st.2 + 1) else st)
    (0, 0)

/-- One Match object of step 3 (lines 227-253). -/
def mkMatch (profiles : List ColumnProfile) (bps : List (String × (String × Q)))
    (idx : ℕ) (clusterKeys : List String) : Match :=
  let clusterProfiles := clusterKeys.map (lookupProfile profiles)
  let ts := clusterScore bps clusterKeys
  let confidence := if 0 < ts.2 then ts.1 / Q.ofN ts.2 else 0
  { id := "match-" ++ toString idx
    columns := clusterProfiles.map
      (fun p => { fileId := p.source.fileId, fileName := p.source.fileName,
                  columnName := p.source.originalName })
    programmaticConfidence := confidence
    status := MatchStatus.PENDING
    source := MatchSource.PROGRAMMATIC
    finalName := findMostDescriptiveName clusterProfiles }

/-- Stable insertion of a match into a descending-confidence list; an earlier
match stays before later matches of equal confidence, reproducing the stable
`matches.sort((a, b) => b.programmaticConfidence - a.programmaticConfidence)`. -/
def insertDesc (m : Match) : List Match → List Match
  | [] => [m]
  | x :: xs =>
      if x.programmaticConfidence ≤ m.programmaticConfidence then m :: x :: xs
      else x :: insertDesc m xs

/-- Stable sort by descending programmatic confidence (line 259). -/
def sortDescending (l : List Match) : List Match := l.foldr insertDesc []

/-- The profile list `files.flatMap(f => f.columns.map(createColumnProfile))`. -/
def profilesOf (files : List UploadedFile) : List ColumnProfile :=
  files.flatMap (fun f => f.columns.map createColumnProfile)

/-- The full input column list `files.flatMap(f => f.columns)`. -/
def allColumnsOf (files : List UploadedFile) : List ColumnData :=
  files.flatMap (fun f => f.columns)

/-- `generateMatches(files)` (matchingService.ts lines 155-262). -/
def generateMatches (files : List UploadedFile) : MatchResult :=
  if files.length < 2 then { matches' := [], unmatched := [] }
  else
    let profiles := profilesOf files
    let bps := mkBestPairs profiles
    let clusters := buildClusters (bps.map (fun kv => kv.1))
    let matchList := clusters.enum.map (fun ic => mkMatch profiles bps ic.1 ic.2.2)
    let matchedColumnKeys := clusters.flatMap (fun c => c.2)
    let unmatched := (allColumnsOf files).filter
      (fun c => ¬ colKey c ∈ matchedColumnKeys)
    { matches' := sortDescending matchList, unmatched := unmatched }

/-!
The Row Aligner, step 2 of `parseFiles` (parserService.ts lines 69-175).
Parsing of the physical file formats is external; the aligner operates on
the intermediate files (id, name, raw rows, headers).  A row is an
association list from header to value (a parsed JS object has each key at
most once), and JS Maps keep their insertion-order / last-write semantics.
-/

/-- One parsed data row: `row[header]` reads the first entry, and a missing
header reads as null (undefined in JS). -/
def Row : Type := List (String × JSValue)

instance : DecidableEq Row := fun a b => List.hasDecEq a b

/-- `row[header]`. -/
def rowGet (row : Row) (header : String) : JSValue :=
  ((row.find? (fun kv => kv.1 = header)).map (fun kv => kv.2)).getD JSValue.null

/-- An intermediate file of parseFiles step 1 (the fields the aligner reads). -/
structure IntermediateFile where
  id : String
  name : String
  rawData : List Row
  headers : List String
deriving DecidableEq

/-- `map.set(k, v)` on an insertion-ordered association list: an existing key
keeps its position and gets the new value, a new key goes to the back. -/
def mapSet (m : List (JSValue × Row)) (k : JSValue) (v : Row) : List (JSValue × Row) :=
  if m.any (fun kv => kv.1 = k) then m.map (fun kv => if kv.1 = k then (k, v) else kv)
  else m ++ [(k, v)]

/-- `map.get(k)` as an Option. -/
def mapGet (m : List (JSValue × Row)) (k : JSValue) : Option Row :=
  (m.find? (fun kv => kv.1 = k)).map (fun kv => kv.2)

/-- `map.has(k)`. -/
def mapHas (m : List (JSValue × Row)) (k : JSValue) : Bool :=
  m.any (fun kv => kv.1 = k)

/-- `new Map(data.map(row => [row[header], row]))`: inserting in row order,
so the keys come out in first-occurrence order and each key holds the last
row that carried it. -/
def mapFromRows (rows : List Row) (header : String) : List (JSValue × Row) :=
  rows.foldl (fun m row => mapSet m (rowGet row header) row) []

/-- The same insertion-ordered map shape for the per-file data map
(`finalDataMap`), keyed by file id. -/
def fmapSet (m : List (String × List Row)) (k : String) (v : List Row) :
    List (String × List Row) :=
  if m.any (fun kv => kv.1 = k) then m.map (fun kv => if kv.1 = k then (k, v) else kv)
  else m ++ [(k, v)]

def fmapGet (m : List (String × List Row)) (k : String) : Option (List Row) :=
  (m.find? (fun kv => kv.1 = k)).map (fun kv => kv.2)

/-- A key-candidate profile, the element shape of `potentialKeys`
(parserService.ts lines 121-126). -/
structure KeyCand where
  fileId : String
  fileName : String
  header : String
  cleanedName : String
  uniquenessRatio : Q
deriving DecidableEq

/-- `createSimpleProfile(header, data)` (lines 90-96), fused with the
candidate construction of lines 121-125. -/
def mkKeyCand (f : IntermediateFile) (header : String) : KeyCand :=
  let sample := ((f.rawData.take 100).map (fun row => rowGet row header)).filter
    (fun d => ¬(d = JSValue.null ∨ d = JSValue.str ""))
  let valueSet := sample.dedup
  let uniq := Q.ofN valueSet.length /
    Q.ofN (if sample.length = 0 then 1 else sample.length)
  { fileId := f.id, fileName := f.name, header := header,
    cleanedName := cleanName header, uniquenessRatio := uniq }

/-- `potentialKeys` (lines 121-126): every header of every file profiled and
filtered to uniqueness ratio strictly above 0.9. -/
def potentialKeys (ifiles : List IntermediateFile) : List KeyCand :=
  (ifiles.flatMap (fun f => f.headers.map (mkKeyCand f))).filter
    (fun p => (0.9 : Q) < p.uniquenessRatio)

/-- The double loop of lines 128-144: scan ordered index pairs i < j, skip
same-file pairs, and keep the first pair whose cleaned-name similarity
strictly exceeds the running maximum, which starts at the 0.7 acceptance
threshold.  The result carries the winning pair and its score. -/
def findBestKeyPair (pks : List KeyCand) :
    Option (KeyCand × KeyCand × Q) :=
  (pks.enum.flatMap (fun ik => (pks.drop (ik.1 + 1)).map (fun k2 => (ik.2, k2)))).foldl
    (fun best pair =>
      if pair.1.fileId ≠ pair.2.fileId then
        let score := nameSimilarity pair.1.cleanedName pair.2.cleanedName
        let maxScore := match best with
          | none => (0.7 : Q)
          | some b => b.2.2
        if maxScore < score then some (pair.1, pair.2, score) else best
      else best)
    none

/-- RowAlignmentResult: success flag and explanatory message. -/
structure AlignResult where
  success : Bool
  message : String
deriving DecidableEq

/-- The common keys of the winning pair (line 157): keys of the first
table's map, in first-discovery order, that are non-null and present in the
second table's map. -/
def commonKeysOf (map1 map2 : List (JSValue × Row)) : List JSValue :=
  ((map1.map (fun kv => kv.1)).filter
    (fun k => ¬ k = JSValue.null ∧ mapHas map2 k))

def emptyRow : Row := []

/-- The row-alignment step of parseFiles (lines 120-175), given the already
parsed intermediate files: returns the alignment result and the final
per-file data map. -/
def alignRows (ifiles : List IntermediateFile) :
    AlignResult × List (String × List Row) :=
  let pks := potentialKeys ifiles
  let best := findBestKeyPair pks
  let initMap := ifiles.foldl (fun m f => fmapSet m f.id f.rawData) []
  match best with
  | none =>
      ({ success := false,
         message := "Could not find a reliable common key to align rows. Sample data may not correspond between files." },
       initMap)
  | some b =>
      let key1 := b.1
      let key2 := b.2.1
      let file1Data := (fmapGet initMap key1.fileId).getD []
      let file2Data := (fmapGet initMap key2.fileId).getD []
      let map1 := mapFromRows file1Data key1.header
      let map2 := mapFromRows file2Data key2.header
      let commonKeys := commonKeysOf map1 map2
      if 10 < commonKeys.length then
        let newFile1Data := commonKeys.map (fun k => (mapGet map1 k).getD emptyRow)
        let newFile2Data := commonKeys.map (fun k => (mapGet map2 k).getD emptyRow)
        let m1 := fmapSet initMap key1.fileId newFile1Data
        let m2 := fmapSet m1 key2.fileId newFile2Data
        ({ success := true,
           message := "Successfully aligned rows between \"" ++ key1.fileName ++
             "\" and \"" ++ key2.fileName ++ "\" using columns \"" ++ key1.header ++
             "\" and \"" ++ key2.header ++
             "\". Sample data is now synchronized for these files." },
         m2)
      else
        ({ success := false,
           message := "Found potential key columns (\"" ++ key1.header ++ "\" and \"" ++
             key2.header ++ "\") but they had too few common values (" ++
             toString commonKeys.length ++ ") to align rows confidently." },
         initMap)


/-- The j-th Wagner-Fischer row stated through the classic distances. -/
def rowD (a b : List Char) (j : ℕ) : List ℕ :=
  (List.range (a.length + 1)).map (fun i => levClassic (a.take i) (b.take j))

/-- All endpoints occurring in a list of canonical pair keys. -/
def pairEndpoints (pairKeys : List String) : List String :=
  pairKeys.flatMap (fun pk => [(splitPair pk).1, (splitPair pk).2])

/-- The invariant the outer clustering loop maintains on (visited, clusters). -/
structure ClusterInv (pairKeys : List String) {α : Type} (val : String → α)
    (visited : List String) (clusters : List (String × List String)) : Prop where
  vis_mem : ∀ k ∈ visited, ∃ c ∈ clusters, k ∈ c.2
  mem_vis : ∀ c ∈ clusters, ∀ k ∈ c.2, k ∈ visited
  nodup : ∀ c ∈ clusters, (c.2).Nodup
  disj : List.Pairwise (fun c1 c2 => ∀ k, k ∈ c1.2 → ¬ k ∈ c2.2) clusters
  closed : ∀ pk ∈ pairKeys, ∀ c ∈ clusters,
    ((splitPair pk).1 ∈ c.2 → (splitPair pk).2 ∈ c.2) ∧
    ((splitPair pk).2 ∈ c.2 → (splitPair pk).1 ∈ c.2)
  founder : ∀ c ∈ clusters, ∃ pk ∈ pairKeys,
    (splitPair pk).1 ∈ c.2 ∧ (splitPair pk).2 ∈ c.2
  endpoints : ∀ c ∈ clusters, ∀ k ∈ c.2, k ∈ pairEndpoints pairKeys
  val_const : ∀ c ∈ clusters, ∀ k1 ∈ c.2, ∀ k2 ∈ c.2, val k1 = val k2

/-- The well-formedness assumption the clustering bookkeeping relies on:
all column keys `fileId-originalName` are pairwise distinct and none
contains a '|'.  Both can fail for adversarial fileIds, since the key is
built by plain string concatenation. -/
abbrev KeysOK (files : List UploadedFile) : Prop :=
  ((allColumnsOf files).map colKey).Nodup ∧
    ∀ c ∈ allColumnsOf files, ¬ '|' ∈ (colKey c).toList

/-- Whether an accepted pair lies entirely inside a cluster: the condition of
the `totalScore` accumulation of step 3. -/
def inCluster (ck : List String) (kv : String × (String × Q)) : Bool :=
  decide ((splitPair kv.1).1 ∈ ck ∧ (splitPair kv.1).2 ∈ ck)

/-- The key `fileId-columnName` of a match member, mirroring colKey. -/
def cimKey (cm : ColumnInMatch) : String := cm.fileId ++ "-" ++ cm.columnName

/-- Scenario input for C7: a transaction-amount column with values 5..50. -/
def txnCol : ColumnData :=
  { fileId := "fA", fileName := "a.csv", originalName := "transaction_amount",
    sampleData := [JSValue.num 5, JSValue.num 10, JSValue.num 10, JSValue.num 20,
      JSValue.num 20, JSValue.num 30, JSValue.num 30, JSValue.num 40, JSValue.num 40,
      JSValue.num 50],
    dataType := DataType.number }

/-- Scenario input for C7: an account-balance column with values 10000..50000. -/
def balCol : ColumnData :=
  { fileId := "fB", fileName := "b.csv", originalName := "account_balance",
    sampleData := [JSValue.num 10000, JSValue.num 20000, JSValue.num 20000,
      JSValue.num 30000, JSValue.num 30000, JSValue.num 40000, JSValue.num 40000,
      JSValue.num 50000, JSValue.num 50000, JSValue.num 10000],
    dataType := DataType.number }

def scenFiles : List UploadedFile :=
  [ { id := "fA", name := "a.csv", columns := [txnCol] },
    { id := "fB", name := "b.csv", columns := [balCol] } ]

def txnProf : ColumnProfile := createColumnProfile txnCol

def balProf : ColumnProfile := createColumnProfile balCol

def dummyStats : NumericStats :=
  { mean := 0, stddev := 0, min := 0, max := 0, range := 0, orderOfMagnitude := 0 }

def txnStats : NumericStats := (txnProf.numericStats).getD dummyStats

def balStats : NumericStats := (balProf.numericStats).getD dummyStats

/-- Inputs whose column keys collide: `("f", "x-y")` and `("f-x", "y")` both
produce the key "f-x-y". -/
def numsAC : List JSValue :=
  [JSValue.num 1, JSValue.num 2, JSValue.num 2, JSValue.num 3, JSValue.num 3]

def cexA : ColumnData :=
  { fileId := "f", fileName := "f.csv", originalName := "x-y",
    sampleData := numsAC, dataType := DataType.number }

def cexB : ColumnData :=
  { fileId := "f-x", fileName := "g.csv", originalName := "y",
    sampleData := [JSValue.str "a"], dataType := DataType.string }

def cexC : ColumnData :=
  { fileId := "g", fileName := "h.csv", originalName := "xy",
    sampleData := numsAC, dataType := DataType.number }

def cexFiles1 : List UploadedFile :=
  [ { id := "f", name := "f.csv", columns := [cexA] },
    { id := "f-x", name := "g.csv", columns := [cexB] },
    { id := "g", name := "h.csv", columns := [cexC] } ]

def strsAB : List JSValue :=
  [JSValue.str "a", JSValue.str "a", JSValue.str "b", JSValue.str "b", JSValue.str "b"]

def cexD : ColumnData :=
  { fileId := "f", fileName := "f.csv", originalName := "x-y",
    sampleData := strsAB, dataType := DataType.string }

def cexE : ColumnData :=
  { fileId := "f-x", fileName := "g.csv", originalName := "y",
    sampleData := strsAB, dataType := DataType.string }

def cexFiles2 : List UploadedFile :=
  [ { id := "f", name := "f.csv", columns := [cexD] },
    { id := "f-x", name := "g.csv", columns := [cexE] } ]

def u2 : List JSValue := [JSValue.str "a1", JSValue.str "a2"]

def c3A : ColumnData :=
  { fileId := "f1", fileName := "1.csv", originalName := "x-y",
    sampleData := u2, dataType := DataType.string }

def c3B : ColumnData :=
  { fileId := "f2", fileName := "2.csv", originalName := "x-y",
    sampleData := u2, dataType := DataType.string }

def c3C : ColumnData :=
  { fileId := "g", fileName := "3.csv", originalName := "x-y",
    sampleData := u2, dataType := DataType.string }

def c3D : ColumnData :=
  { fileId := "g-x", fileName := "4.csv", originalName := "y",
    sampleData := [JSValue.str "zzz"], dataType := DataType.string }

def cexFiles3 : List UploadedFile :=
  [ { id := "f1", name := "1.csv", columns := [c3A] },
    { id := "f2", name := "2.csv", columns := [c3B] },
    { id := "g", name := "3.csv", columns := [c3C] },
    { id := "g-x", name := "4.csv", columns := [c3D] } ]

/-- A well-formed input: three files, each with one highly unique column "x". -/
def wA : ColumnData :=
  { fileId := "f1", fileName := "1.csv", originalName := "x",
    sampleData := u2, dataType := DataType.string }

def wB : ColumnData :=
  { fileId := "f2", fileName := "2.csv", originalName := "x",
    sampleData := u2, dataType := DataType.string }

def wC : ColumnData :=
  { fileId := "f3", fileName := "3.csv", originalName := "x",
    sampleData := u2, dataType := DataType.string }

def wFiles : List UploadedFile :=
  [ { id := "f1", name := "1.csv", columns := [wA] },
    { id := "f2", name := "2.csv", columns := [wB] },
    { id := "f3", name := "3.csv", columns := [wC] } ]

def dummyMatch : Match :=
  { id := "", columns := [], programmaticConfidence := 0,
    status := MatchStatus.PENDING, source := MatchSource.PROGRAMMATIC, finalName := "" }

/-- Aligner inputs: two tables sharing an "id" key column over 0..11. -/
def mkRow (v : ℕ) (extra : String) : Row :=
  [("id", JSValue.num (Q.ofN v)), ("v", JSValue.str extra)]

def if1 : IntermediateFile :=
  { id := "t1.csv-0", name := "t1.csv",
    rawData := (List.range 12).map (fun i => mkRow i "a"), headers := ["id", "v"] }

def if2 : IntermediateFile :=
  { id := "t2.csv-1", name := "t2.csv",
    rawData := (List.range 12).map (fun i => mkRow i "b"), headers := ["id", "v"] }

def if3 : IntermediateFile :=
  { id := "t3.csv-1", name := "t3.csv",
    rawData := (List.range 12).map (fun i => mkRow (i + 7) "b"), headers := ["id", "v"] }

def dummyKeyTriple : KeyCand × KeyCand × Q :=
  ({ fileId := "", fileName := "", header := "", cleanedName := "", uniquenessRatio := 0 },
   { fileId := "", fileName := "", header := "", cleanedName := "", uniquenessRatio := 0 },
   0)

def bestKey13 : KeyCand × KeyCand × Q :=
  (findBestKeyPair (potentialKeys [if1, if3])).getD dummyKeyTriple

/-- The initial per-file data map of parseFiles (line 147). -/
def initMapOf (ifiles : List IntermediateFile) : List (String × List Row) :=
  ifiles.foldl (fun m f => fmapSet m f.id f.rawData) []

/-- `map1` of parseFiles (line 154), for the winning pair `b`. -/
def alignMap1 (ifiles : List IntermediateFile) (b : KeyCand × KeyCand × Q) :
    List (JSValue × Row) :=
  mapFromRows ((fmapGet (initMapOf ifiles) b.1.fileId).getD []) b.1.header

/-- `map2` of parseFiles (line 155), for the winning pair `b`. -/
def alignMap2 (ifiles : List IntermediateFile) (b : KeyCand × KeyCand × Q) :
    List (JSValue × Row) :=
  mapFromRows ((fmapGet (initMapOf ifiles) b.2.1.fileId).getD []) b.2.1.header



end TU
theorem Q.den_nz_rat (q : Q) : (q.den : ℚ) ≠ 0 := by
  exact_mod_cast q.den_pos.ne'

theorem Q.toRat_normN (n : ℤ) (d : ℕ) (h : 0 < d) :
    (Q.normN n d h).toRat = (n : ℚ) / (d : ℚ) := by
  unfold Q.normN Q.toRat
  simp only
  set g := Nat.gcd n.natAbs d with hgdef
  have hg : 0 < g := Nat.gcd_pos_of_pos_right _ h
  have hgn : (g : ℤ) ∣ n := Int.dvd_natAbs.mp (Int.natCast_dvd_natCast.mpr (Nat.gcd_dvd_left _ _))
  have hgd : g ∣ d := Nat.gcd_dvd_right _ _
  have c1 : ((n / (g : ℤ) : ℤ) : ℚ) = (n : ℚ) / ((g : ℤ) : ℚ) := Int.cast_div_charZero hgn
  have c2 : ((d / g : ℕ) : ℚ) = (d : ℚ) / (g : ℚ) := Nat.cast_div_charZero hgd
  rw [c1, c2]
  have hgq : (g : ℚ) ≠ 0 := by exact_mod_cast hg.ne'
  have hdq : (d : ℚ) ≠ 0 := by exact_mod_cast h.ne'
  push_cast
  field_simp

theorem Q.toRat_mk0 (n : ℤ) (d : ℕ) : (Q.mk0 n d).toRat = (n : ℚ) / (d : ℚ) := by
  unfold Q.mk0
  split
  · exact Q.toRat_normN n d _
  · have hd : d = 0 := by omega
    subst hd
    simp [Q.toRat]

theorem Q.toRat_mkI (n d : ℤ) : (Q.mkI n d).toRat = (n : ℚ) / (d : ℚ) := by
  unfold Q.mkI
  split
  · rename_i hlt
    rw [Q.toRat_mk0]
    have : (((-d).toNat : ℤ) : ℚ) = ((-d : ℤ) : ℚ) := by
      exact_mod_cast congrArg (fun z : ℤ => (z : ℚ)) (Int.toNat_of_nonneg (by omega))
    push_cast at this ⊢
    rw [this]
    rw [neg_div_neg_eq]
  · rename_i hge
    rw [Q.toRat_mk0]
    have : ((d.toNat : ℤ) : ℚ) = ((d : ℤ) : ℚ) := by
      exact_mod_cast congrArg (fun z : ℤ => (z : ℚ)) (Int.toNat_of_nonneg (by omega))
    push_cast at this ⊢
    rw [this]

theorem Q.toRat_add (a b : Q) : (a + b).toRat = a.toRat + b.toRat := by
  show (Q.add a b).toRat = _
  unfold Q.add
  rw [Q.toRat_mk0, Q.toRat]
  have ha := a.den_nz_rat
  have hb := b.den_nz_rat
  rw [Q.toRat]
  push_cast
  field_simp

theorem Q.toRat_sub (a b : Q) : (a - b).toRat = a.toRat - b.toRat := by
  show (Q.sub a b).toRat = _
  unfold Q.sub
  rw [Q.toRat_mk0, Q.toRat]
  have ha := a.den_nz_rat
  have hb := b.den_nz_rat
  rw [Q.toRat]
  push_cast
  field_simp
  ring

theorem Q.toRat_mul (a b : Q) : (a * b).toRat = a.toRat * b.toRat := by
  show (Q.mul a b).toRat = _
  unfold Q.mul
  rw [Q.toRat_mk0, Q.toRat]
  have ha := a.den_nz_rat
  have hb := b.den_nz_rat
  rw [Q.toRat]
  push_cast
  field_simp

theorem Q.toRat_div (a b : Q) : (a / b).toRat = a.toRat / b.toRat := by
  show (Q.div a b).toRat = _
  unfold Q.div
  rw [Q.toRat_mkI, Q.toRat, Q.toRat]
  have ha := a.den_nz_rat
  have hb := b.den_nz_rat
  rcases eq_or_ne b.num 0 with h0 | h0
  · simp [h0]
  · have hbq : (b.num : ℚ) ≠ 0 := by exact_mod_cast h0
    push_cast
    field_simp

theorem Q.le_iff (a b : Q) : a ≤ b ↔ a.toRat ≤ b.toRat := by
  show a.num * b.den ≤ b.num * a.den ↔ _
  unfold Q.toRat
  have ha : (0 : ℚ) < a.den := by exact_mod_cast a.den_pos
  have hb : (0 : ℚ) < b.den := by exact_mod_cast b.den_pos
  rw [div_le_div_iff ha hb]
  exact_mod_cast Iff.rfl

theorem Q.lt_iff (a b : Q) : a < b ↔ a.toRat < b.toRat := by
  show a.num * b.den < b.num * a.den ↔ _
  unfold Q.toRat
  have ha : (0 : ℚ) < a.den := by exact_mod_cast a.den_pos
  have hb : (0 : ℚ) < b.den := by exact_mod_cast b.den_pos
  rw [div_lt_div_iff ha hb]
  exact_mod_cast Iff.rfl

theorem Q.toRat_abs (a : Q) : a.abs.toRat = |a.toRat| := by
  unfold Q.abs Q.toRat
  simp only
  rw [abs_div]
  congr 1
  · push_cast
    ring
  · exact (abs_of_pos (by exact_mod_cast a.den_pos)).symm

theorem Q.toRat_ofN (n : ℕ) : (Q.ofN n).toRat = (n : ℚ) := by
  unfold Q.ofN Q.toRat
  simp

theorem Q.toRat_ofZ (n : ℤ) : (Q.ofZ n).toRat = (n : ℚ) := by
  unfold Q.ofZ Q.toRat
  simp

theorem Q.toRat_ofNat (n : ℕ) : (OfNat.ofNat n : Q).toRat = (n : ℚ) :=
  Q.toRat_ofN n

theorem Q.toRat_min (a b : Q) : (min a b).toRat = min a.toRat b.toRat := by
  show (if a ≤ b then a else b).toRat = _
  split
  · rename_i h
    exact (min_eq_left ((Q.le_iff a b).mp h)).symm
  · rename_i h
    have := (Q.le_iff a b).not.mp h
    exact (min_eq_right (le_of_not_le this)).symm

theorem Q.toRat_max (a b : Q) : (max a b).toRat = max a.toRat b.toRat := by
  show (if a ≤ b then b else a).toRat = _
  split
  · rename_i h
    exact (max_eq_right ((Q.le_iff a b).mp h)).symm
  · rename_i h
    have := (Q.le_iff a b).not.mp h
    exact (max_eq_left (le_of_not_le this)).symm

theorem Q.toRat_scientific_true (m e : ℕ) :
    (OfScientific.ofScientific m true e : Q).toRat = (m : ℚ) / (10 ^ e : ℕ) := by
  show (Q.mk0 m (10 ^ e)).toRat = _
  rw [Q.toRat_mk0]
  push_cast
  ring


namespace TU
theorem Q.toRat_neg (a : Q) : (-a).toRat = -a.toRat := by
  show (Q.neg a).toRat = _
  unfold Q.neg Q.toRat
  push_cast
  ring

theorem levClassic_nil_left (ys : List Char) : levClassic [] ys = ys.length := by
  unfold levClassic
  simp

theorem levClassic_nil_right (xs : List Char) : levClassic xs [] = xs.length := by
  unfold levClassic
  split
  · rename_i h
    simp [h]
  · simp

theorem min_rot (a b c : ℕ) : min a (min b c) = min b (min a c) := by omega

theorem levClassic_concat (xs ys : List Char) (x y : Char) :
    levClassic (xs ++ [x]) (ys ++ [y]) =
      min (levClassic xs (ys ++ [y]) + 1)
        (min (levClassic (xs ++ [x]) ys + 1)
          (levClassic xs ys + (if x = y then 0 else 1))) := by
  conv_lhs => rw [levClassic.eq_def]
  have hx : xs ++ [x] ≠ [] := by simp
  have hy : ys ++ [y] ≠ [] := by simp
  rw [dif_neg hx, dif_neg hy]
  simp [List.dropLast_concat, List.getLast_concat]

theorem rowD_length (a b : List Char) (j : ℕ) : (rowD a b j).length = a.length + 1 := by
  simp [rowD]

theorem rowD_zero (a b : List Char) : rowD a b 0 = List.range (a.length + 1) := by
  unfold rowD
  apply List.ext_getElem
  · simp
  · intro i h1 h2
    simp only [List.getElem_map, List.getElem_range, List.take_zero, levClassic_nil_right]
    have hi : i ≤ a.length := by simp at h1; omega
    simp [List.length_take, Nat.min_eq_left hi]

theorem take_succ_concat {α : Type} (l : List α) (k : ℕ) (h : k < l.length) :
    l.take (k + 1) = l.take k ++ [l[k]] := by
  rw [List.take_succ]
  simp [List.getElem?_eq_getElem h]

theorem rowD_getElem (a b : List Char) (j k : ℕ) (h : k < (rowD a b j).length) :
    (rowD a b j)[k] = levClassic (a.take k) (b.take j) := by
  simp [rowD]

theorem fillRowAux_spec (a b : List Char) (j : ℕ) (hj : j < b.length) :
    ∀ m k, m = a.length - k → k ≤ a.length →
    fillRowAux b[j] (levClassic (a.take k) (b.take (j + 1))) (a.drop k) ((rowD a b j).drop k)
      = (List.range' (k + 1) (a.length - k)).map
          (fun i => levClassic (a.take i) (b.take (j + 1))) := by
  intro m
  induction m with
  | zero =>
      intro k hm hk
      have hka : k = a.length := by omega
      subst hka
      simp [fillRowAux, List.drop_length]
  | succ n ih =>
      intro k hm hk
      have hka : k < a.length := by omega
      have hdropa : a.drop k = a[k] :: a.drop (k + 1) := List.drop_eq_getElem_cons hka
      have hk1 : k < (rowD a b j).length := by rw [rowD_length]; omega
      have hk2 : k + 1 < (rowD a b j).length := by rw [rowD_length]; omega
      have hdropr : (rowD a b j).drop k =
          levClassic (a.take k) (b.take j) ::
            levClassic (a.take (k + 1)) (b.take j) :: (rowD a b j).drop (k + 2) := by
        rw [List.drop_eq_getElem_cons hk1, rowD_getElem a b j k hk1]
        congr 1
        rw [List.drop_eq_getElem_cons hk2, rowD_getElem a b j (k + 1) hk2]
      rw [hdropa, hdropr]
      simp only [fillRowAux]
      have hstep : levClassic (a.take (k + 1)) (b.take (j + 1)) =
          min (levClassic (a.take (k + 1)) (b.take j) + 1)
            (min (levClassic (a.take k) (b.take (j + 1)) + 1)
              (levClassic (a.take k) (b.take j) + (if a[k] = b[j] then 0 else 1))) := by
        rw [take_succ_concat a k hka, take_succ_concat b j hj, levClassic_concat, min_rot]
      rw [← hstep]
      have htail : levClassic (a.take (k + 1)) (b.take j) :: (rowD a b j).drop (k + 2) =
          (rowD a b j).drop (k + 1) := by
        rw [List.drop_eq_getElem_cons hk2, rowD_getElem a b j (k + 1) hk2]
      rw [htail]
      rw [ih (k + 1) (by omega) (by omega)]
      have hrange : List.range' (k + 1) (a.length - k) =
          (k + 1) :: List.range' (k + 2) (a.length - (k + 1)) := by
        have h5 : a.length - k = (a.length - (k + 1)) + 1 := by omega
        rw [h5, List.range'_succ]
      rw [hrange]
      simp

theorem rowD_step (a b : List Char) (j : ℕ) (hj : j < b.length) :
    levRowStep a (j, rowD a b j) b[j] = (j + 1, rowD a b (j + 1)) := by
  unfold levRowStep
  simp only
  congr 1
  have h0 : levClassic (a.take 0) (b.take (j + 1)) = j + 1 := by
    simp only [List.take_zero, levClassic_nil_left]
    simp [List.length_take]
    omega
  have hfill := fillRowAux_spec a b j hj (a.length - 0) 0 rfl (Nat.zero_le _)
  simp only [List.drop_zero, Nat.sub_zero] at hfill
  have hr : List.range (a.length + 1) = 0 :: List.range' 1 a.length := by
    rw [List.range_eq_range', List.range'_succ]
  have hRHS : rowD a b (j + 1) =
      levClassic (a.take 0) (b.take (j + 1)) ::
        (List.range' 1 a.length).map (fun i => levClassic (a.take i) (b.take (j + 1))) := by
    unfold rowD
    rw [hr]
    simp only [List.map_cons]
  rw [hRHS]
  congr 1
  · exact h0.symm
  · conv_lhs => rw [← h0]
    simpa using hfill

theorem levFold_spec (a b : List Char) :
    ∀ (rest done : List Char), b = done ++ rest →
      rest.foldl (levRowStep a) (done.length, rowD a b done.length) =
        (b.length, rowD a b b.length) := by
  intro rest
  induction rest with
  | nil =>
      intro done h
      simp only [List.append_nil] at h
      subst h
      rfl
  | cons r rest ih =>
      intro done h
      rw [List.foldl_cons]
      have hlen : done.length < b.length := by
        rw [h]
        simp
  
      have hr : b[done.length] = r := by
        subst h
        rw [List.getElem_append_right (le_refl _)]
        simp
      have hstep := rowD_step a b done.length hlen
      rw [hr] at hstep
      rw [hstep]
      have h2 := ih (done ++ [r]) (by rw [h]; simp)
      simpa using h2

theorem levenshteinL_eq (a b : List Char) : levenshteinL a b = levClassic a b := by
  unfold levenshteinL
  rw [← rowD_zero a b]
  have h := levFold_spec a b b [] rfl
  simp only [List.length_nil] at h
  rw [h]
  unfold rowD
  rw [List.getD_eq_getElem?_getD]
  rw [List.getElem?_eq_getElem (by simp)]
  simp

theorem levClassic_le_max : ∀ (n : ℕ) (xs ys : List Char), xs.length + ys.length ≤ n →
    levClassic xs ys ≤ max xs.length ys.length := by
  intro n
  induction n with
  | zero =>
      intro xs ys h
      have hx : xs = [] := List.eq_nil_of_length_eq_zero (by omega)
      have hy : ys = [] := List.eq_nil_of_length_eq_zero (by omega)
      subst hx
      subst hy
      simp [levClassic_nil_left]
  | succ n ih =>
      intro xs ys h
      by_cases hx : xs = []
      · subst hx
        simp [levClassic_nil_left]
      · by_cases hy : ys = []
        · subst hy
          simp [levClassic_nil_right]
        · rw [levClassic.eq_def, dif_neg hx, dif_neg hy]
          have hxl : 0 < xs.length := List.length_pos.mpr hx
          have hyl : 0 < ys.length := List.length_pos.mpr hy
          have h3 := ih xs.dropLast ys.dropLast (by
            simp only [List.length_dropLast]
            omega)
          simp only [List.length_dropLast] at h3
          have hcost : (if xs.getLast hx = ys.getLast hy then 0 else 1) ≤ 1 := by
            split <;> omega
          omega

theorem levenshtein_eq_levClassic (s1 s2 : String) :
    levenshtein s1 s2 = levClassic s1.toList s2.toList := by
  unfold levenshtein
  exact levenshteinL_eq _ _

theorem levenshtein_le_max (s1 s2 : String) :
    levenshtein s1 s2 ≤ max s1.length s2.length := by
  rw [levenshtein_eq_levClassic]
  have h := levClassic_le_max (s1.toList.length + s2.toList.length) s1.toList s2.toList le_rfl
  simpa using h



theorem Q.le_transfer {a b : Q} (h : a.toRat ≤ b.toRat) : a ≤ b := (Q.le_iff a b).mpr h

theorem Q.toRat_zero : (0 : Q).toRat = 0 := by
  rw [Q.toRat_ofNat]
  norm_num

theorem Q.toRat_one : (1 : Q).toRat = 1 := by
  rw [Q.toRat_ofNat]
  norm_num

theorem nameSimilarity_bounds (s1 s2 : String) :
    (0 : Q) ≤ nameSimilarity s1 s2 ∧ nameSimilarity s1 s2 ≤ 1 := by
  simp only [nameSimilarity]
  split
  · exact ⟨by decide, by decide⟩
  · rename_i hm
    have hd : levenshtein s1 s2 ≤ max s1.length s2.length := levenshtein_le_max s1 s2
    have hm0 : 0 < max s1.length s2.length := by omega
    constructor
    · apply Q.le_transfer
      rw [Q.toRat_zero, Q.toRat_sub, Q.toRat_div, Q.toRat_one, Q.toRat_ofN, Q.toRat_ofN]
      have hq : (levenshtein s1 s2 : ℚ) / ((max s1.length s2.length : ℕ) : ℚ) ≤ 1 := by
        rw [div_le_one (by exact_mod_cast hm0)]
        exact_mod_cast hd
      linarith
    · apply Q.le_transfer
      rw [Q.toRat_sub, Q.toRat_div, Q.toRat_one, Q.toRat_ofN, Q.toRat_ofN]
      have hq : (0 : ℚ) ≤ (levenshtein s1 s2 : ℚ) / ((max s1.length s2.length : ℕ) : ℚ) :=
        div_nonneg (by positivity) (by positivity)
      linarith

theorem jaccard_bounds (s1 s2 : List JSValue) :
    (0 : Q) ≤ jaccardSimilarity s1 s2 ∧ jaccardSimilarity s1 s2 ≤ 1 := by
  simp only [jaccardSimilarity]
  split
  · exact ⟨by decide, by decide⟩
  · rename_i hsz
    split
    · exact ⟨by decide, by decide⟩
    · rename_i hu
      set inter := ((s1.filter (fun x => x ∈ s2)).dedup).length with hinter
      have h1 : inter ≤ s1.length := by
        calc inter ≤ (s1.filter (fun x => x ∈ s2)).length :=
              List.Sublist.length_le (List.dedup_sublist _)
          _ ≤ s1.length := List.length_filter_le _ _
      have h2 : inter ≤ s2.length := by
        have hnd : ((s1.filter (fun x => x ∈ s2)).dedup).Nodup := List.nodup_dedup _
        have hsub : ((s1.filter (fun x => x ∈ s2)).dedup) ⊆ s2 := by
          intro x hx
          have hx2 := List.dedup_subset _ hx
          rw [List.mem_filter] at hx2
          simpa using hx2.2
        exact (List.subperm_of_subset hnd hsub).length_le
      have hle : inter ≤ s1.length + s2.length - inter := by omega
      have hpos : 0 < s1.length + s2.length - inter := by omega
      constructor
      · apply Q.le_transfer
        rw [Q.toRat_zero, Q.toRat_div, Q.toRat_ofN, Q.toRat_ofN]
        exact div_nonneg (by positivity) (by positivity)
      · apply Q.le_transfer
        rw [Q.toRat_div, Q.toRat_ofN, Q.toRat_ofN, Q.toRat_one]
        rw [div_le_one (by exact_mod_cast hpos)]
        exact_mod_cast hle

theorem max_namesim_bounds (a b c d : String) :
    (0 : Q) ≤ max (nameSimilarity a b) (nameSimilarity c d) ∧
      max (nameSimilarity a b) (nameSimilarity c d) ≤ 1 := by
  have h1 := nameSimilarity_bounds a b
  have h2 := nameSimilarity_bounds c d
  constructor
  · apply Q.le_transfer
    rw [Q.toRat_max, Q.toRat_zero]
    have h3 := (Q.le_iff _ _).mp h1.1
    rw [Q.toRat_zero] at h3
    exact le_max_of_le_left h3
  · apply Q.le_transfer
    rw [Q.toRat_max, Q.toRat_one]
    have ha := (Q.le_iff _ _).mp h1.2
    have hb := (Q.le_iff _ _).mp h2.2
    rw [Q.toRat_one] at ha hb
    exact max_le ha hb

theorem one_sub_min_bounds (x : Q) (hx : (0 : Q) ≤ x) :
    (0 : Q) ≤ (1 : Q) - min 1 x ∧ (1 : Q) - min 1 x ≤ 1 := by
  have hx' := (Q.le_iff _ _).mp hx
  rw [Q.toRat_zero] at hx'
  constructor
  · apply Q.le_transfer
    rw [Q.toRat_zero, Q.toRat_sub, Q.toRat_min, Q.toRat_one]
    have h3 : min (1 : ℚ) x.toRat ≤ 1 := min_le_left _ _
    linarith
  · apply Q.le_transfer
    rw [Q.toRat_sub, Q.toRat_min, Q.toRat_one]
    have h3 : (0 : ℚ) ≤ min 1 x.toRat := le_min (by norm_num) hx'
    linarith

theorem calculateConfidence_le_one (p1 p2 : ColumnProfile) :
    calculateConfidence p1 p2 ≤ 1 := by
  simp only [calculateConfidence]
  split
  · decide
  · have hn := max_namesim_bounds p1.baseName p2.baseName p1.cleanedName p2.cleanedName
    have hn0 := (Q.le_iff _ _).mp hn.1
    have hn1 := (Q.le_iff _ _).mp hn.2
    rw [Q.toRat_zero] at hn0
    rw [Q.toRat_one] at hn1
    have hj := jaccard_bounds p1.valueSet p2.valueSet
    have hj0 := (Q.le_iff _ _).mp hj.1
    have hj1 := (Q.le_iff _ _).mp hj.2
    rw [Q.toRat_zero] at hj0
    rw [Q.toRat_one] at hj1
    split
    · apply Q.le_transfer
      rw [Q.toRat_add, Q.toRat_mul, Q.toRat_mul, Q.toRat_one,
        Q.toRat_scientific_true, Q.toRat_scientific_true]
      push_cast
      linarith only [hn0, hn1, hj0, hj1]
    · split
      · apply Q.le_transfer
        rw [Q.toRat_mul, Q.toRat_one, Q.toRat_scientific_true]
        push_cast
        linarith only [hn0, hn1]
      · split
        · rename_i s1 s2 heq1 heq2
          have hscale := one_sub_min_bounds
            (Q.ofN (s1.orderOfMagnitude - s2.orderOfMagnitude).natAbs / 5) (by
              apply Q.le_transfer
              rw [Q.toRat_zero, Q.toRat_div, Q.toRat_ofN, Q.toRat_ofNat]
              positivity)
          have hs0 := (Q.le_iff _ _).mp hscale.1
          have hs1 := (Q.le_iff _ _).mp hscale.2
          rw [Q.toRat_zero] at hs0
          rw [Q.toRat_one] at hs1
          split
          · apply Q.le_transfer
            rw [Q.toRat_mul, Q.toRat_one, Q.toRat_scientific_true]
            push_cast
            linarith only [hn0, hn1]
          · have hcv := one_sub_min_bounds
              ((if s1.mean ≠ 0 then s1.stddev / s1.mean else 0) -
                (if s2.mean ≠ 0 then s2.stddev / s2.mean else 0)).abs (by
                apply Q.le_transfer
                rw [Q.toRat_zero, Q.toRat_abs]
                positivity)
            have hc0 := (Q.le_iff _ _).mp hcv.1
            have hc1 := (Q.le_iff _ _).mp hcv.2
            rw [Q.toRat_zero] at hc0
            rw [Q.toRat_one] at hc1
            apply Q.le_transfer
            rw [Q.toRat_add, Q.toRat_add, Q.toRat_mul, Q.toRat_mul, Q.toRat_mul,
              Q.toRat_one, Q.toRat_scientific_true, Q.toRat_scientific_true,
              Q.toRat_scientific_true]
            push_cast
            linarith only [hn0, hn1, hc0, hc1, hs0, hs1]
        · split
          · apply Q.le_transfer
            rw [Q.toRat_add, Q.toRat_mul, Q.toRat_mul, Q.toRat_one,
              Q.toRat_scientific_true, Q.toRat_scientific_true]
            push_cast
            linarith only [hn0, hn1, hj0, hj1]
          · apply Q.le_transfer
            rw [Q.toRat_add, Q.toRat_mul, Q.toRat_mul, Q.toRat_one,
              Q.toRat_scientific_true, Q.toRat_scientific_true]
            push_cast
            linarith only [hn0, hn1, hj0, hj1]


theorem findBest_spec (profilesE : List (ℕ × ColumnProfile)) (i : ℕ) (p1 : ColumnProfile) :
    findBest profilesE i p1 = ("", 0) ∨
      ∃ jp ∈ profilesE, jp.2.source.fileId ≠ p1.source.fileId ∧
        findBest profilesE i p1 = (profKey jp.2, calculateConfidence p1 jp.2) := by
  unfold findBest
  suffices h : ∀ (l : List (ℕ × ColumnProfile)) (acc : String × Q),
      (∀ jp ∈ l, jp ∈ profilesE) →
      (acc = ("", 0) ∨ ∃ jp ∈ profilesE, jp.2.source.fileId ≠ p1.source.fileId ∧
        acc = (profKey jp.2, calculateConfidence p1 jp.2)) →
      (l.foldl (findBestStep p1 i) acc = ("", 0) ∨
        ∃ jp ∈ profilesE, jp.2.source.fileId ≠ p1.source.fileId ∧
          l.foldl (findBestStep p1 i) acc = (profKey jp.2, calculateConfidence p1 jp.2)) by
    exact h profilesE ("", 0) (fun jp hj => hj) (Or.inl rfl)
  intro l
  induction l with
  | nil => intro acc _ hacc; simpa using hacc
  | cons jp l ih =>
      intro acc hsub hacc
      rw [List.foldl_cons]
      apply ih _ (fun x hx => hsub x (List.mem_cons_of_mem _ hx))
      simp only [findBestStep]
      split
      · exact hacc
      · split
        · exact hacc
        · split
          · rename_i hfile hlt
            right
            exact ⟨jp, hsub jp (List.mem_cons_self _ _), fun he => hfile he.symm, rfl⟩
          · exact hacc

theorem mkBestPairs_spec (profiles : List ColumnProfile) :
    ∀ kv ∈ mkBestPairs profiles, (0.65 : Q) < kv.2.2 ∧
      ∃ p q, p ∈ profiles ∧ q ∈ profiles ∧ q.source.fileId ≠ p.source.fileId ∧
        kv.1 = canonicalKey (profKey p) (profKey q) ∧
        kv.2 = (profKey q, calculateConfidence p q) := by
  unfold mkBestPairs
  suffices h : ∀ (l : List (ℕ × ColumnProfile)) (acc : List (String × (String × Q))),
      (∀ ip ∈ l, ip.2 ∈ profiles) →
      (∀ kv ∈ acc, (0.65 : Q) < kv.2.2 ∧
        ∃ p q, p ∈ profiles ∧ q ∈ profiles ∧ q.source.fileId ≠ p.source.fileId ∧
          kv.1 = canonicalKey (profKey p) (profKey q) ∧
          kv.2 = (profKey q, calculateConfidence p q)) →
      ∀ kv ∈ l.foldl (mkBestPairsStep profiles.enum) acc, (0.65 : Q) < kv.2.2 ∧
        ∃ p q, p ∈ profiles ∧ q ∈ profiles ∧ q.source.fileId ≠ p.source.fileId ∧
          kv.1 = canonicalKey (profKey p) (profKey q) ∧
          kv.2 = (profKey q, calculateConfidence p q) by
    apply h
    · intro ip hip
      have := List.mem_enum hip
      rw [this.2]
      exact List.getElem_mem _
    · intro kv hkv
      simp at hkv
  intro l
  induction l with
  | nil => intro acc _ hacc; simpa using hacc
  | cons ip l ih =>
      intro acc hsub hacc
      rw [List.foldl_cons]
      apply ih _ (fun x hx => hsub x (List.mem_cons_of_mem _ hx))
      intro kv hkv
      simp only [mkBestPairsStep] at hkv
      split at hkv
      · rename_i hgt
        split at hkv
        · exact hacc kv hkv
        · rw [List.mem_append] at hkv
          rcases hkv with hkv | hkv
          · exact hacc kv hkv
          · simp only [List.mem_singleton] at hkv
            subst hkv
            refine ⟨hgt, ?_⟩
            rcases findBest_spec profiles.enum ip.1 ip.2 with hb | ⟨jp, hjp, hne, hb⟩
            · rw [hb] at hgt
              exact absurd hgt (by decide)
            · refine ⟨ip.2, jp.2, hsub ip (List.mem_cons_self _ _), ?_, hne, ?_, ?_⟩
              · have := List.mem_enum hjp
                rw [this.2]
                exact List.getElem_mem _
              · rw [hb]
              · rw [hb]
      · exact hacc kv hkv

theorem splitOnPipe_no_pipe (l : List Char) (h : ¬ '|' ∈ l) : splitOnPipe l = [l] := by
  induction l with
  | nil => rfl
  | cons c rest ih =>
      unfold splitOnPipe
      have hc : ¬ c = '|' := fun he => h (he ▸ List.mem_cons_self _ _)
      rw [if_neg hc]
      rw [ih (fun hm => h (List.mem_cons_of_mem _ hm))]

theorem splitOnPipe_append (l1 l2 : List Char) (h : ¬ '|' ∈ l1) :
    splitOnPipe (l1 ++ '|' :: l2) = l1 :: splitOnPipe l2 := by
  induction l1 with
  | nil =>
      simp only [List.nil_append]
      rw [splitOnPipe.eq_def]
      simp
  | cons c rest ih =>
      have hc : ¬ c = '|' := fun he => h (he ▸ List.mem_cons_self _ _)
      simp only [List.cons_append]
      rw [splitOnPipe.eq_def]
      simp only [if_neg hc]
      rw [ih (fun hm => h (List.mem_cons_of_mem _ hm))]

theorem splitPair_join (a b : String) (ha : ¬ '|' ∈ a.toList) (hb : ¬ '|' ∈ b.toList) :
    splitPair (a ++ "|" ++ b) = (a, b) := by
  unfold splitPair
  have htl : (a ++ "|" ++ b).toList = a.toList ++ '|' :: b.toList := by
    show ((a ++ "|") ++ b).data = a.data ++ '|' :: b.data
    have h1 : ((a ++ "|") ++ b).data = (a.data ++ ['|']) ++ b.data := rfl
    rw [h1, List.append_assoc]
    rfl
  rw [htl, splitOnPipe_append _ _ ha, splitOnPipe_no_pipe _ hb]
  simp only [List.map_cons, List.map_nil]
  rfl

theorem splitPair_canonical (a b : String) (ha : ¬ '|' ∈ a.toList) (hb : ¬ '|' ∈ b.toList) :
    splitPair (canonicalKey a b) = (a, b) ∨ splitPair (canonicalKey a b) = (b, a) := by
  unfold canonicalKey
  split
  · exact Or.inl (splitPair_join a b ha hb)
  · exact Or.inr (splitPair_join b a hb ha)


theorem visitPairs_spec (cur : String) :
    ∀ (pairKeys : List String) (queue visited : List String),
      ∃ adds, visitPairs pairKeys cur queue visited = (queue ++ adds, visited ++ adds) ∧
        adds.Nodup ∧ (∀ x ∈ adds, ¬ x ∈ visited) ∧
        (∀ x ∈ adds, ∃ pk ∈ pairKeys,
          ((splitPair pk).1 = cur ∧ x = (splitPair pk).2) ∨
          ((splitPair pk).2 = cur ∧ x = (splitPair pk).1)) ∧
        (∀ pk ∈ pairKeys,
          ((splitPair pk).1 = cur → (splitPair pk).2 ∈ visited ++ adds) ∧
          ((splitPair pk).2 = cur → (splitPair pk).1 ∈ visited ++ adds)) := by
  intro pairKeys
  induction pairKeys with
  | nil =>
      intro queue visited
      exact ⟨[], by simp [visitPairs], by simp, by simp, by simp, by simp⟩
  | cons pk rest ih =>
      intro queue visited
      show ∃ adds, (pk :: rest).foldl (visitStep cur) (queue, visited) = _ ∧ _
      rw [List.foldl_cons]
      have hstep : ∃ e, visitStep cur (queue, visited) pk = (queue ++ e, visited ++ e) ∧
          e.Nodup ∧ (∀ x ∈ e, ¬ x ∈ visited) ∧
          (∀ x ∈ e, ((splitPair pk).1 = cur ∧ x = (splitPair pk).2) ∨
            ((splitPair pk).2 = cur ∧ x = (splitPair pk).1)) ∧
          ((splitPair pk).1 = cur → (splitPair pk).2 ∈ visited ++ e) ∧
          ((splitPair pk).2 = cur → (splitPair pk).1 ∈ visited ++ e) := by
        simp only [visitStep]
        by_cases h1 : (splitPair pk).1 = cur ∧ ¬ (splitPair pk).2 ∈ visited
        · rw [if_pos h1]
          by_cases h2 : (splitPair pk).2 = cur ∧ ¬ (splitPair pk).1 ∈ visited ++ [(splitPair pk).2]
          · rw [if_pos h2]
            refine ⟨[(splitPair pk).2, (splitPair pk).1], by simp, ?_, ?_, ?_, ?_, ?_⟩
            · have : (splitPair pk).1 ≠ (splitPair pk).2 := by
                intro he
                exact h2.2 (by simp [he])
              simp [this.symm]
            · intro x hx
              simp only [List.mem_cons, List.not_mem_nil, or_false] at hx
              rcases hx with hx | hx
              · simpa [hx] using h1.2
              · have h4 := h2.2
                simp only [List.mem_append, List.mem_singleton, not_or] at h4
                simpa [hx] using h4.1
            · intro x hx
              simp only [List.mem_cons, List.not_mem_nil, or_false] at hx
              rcases hx with hx | hx
              · exact Or.inl ⟨h1.1, hx⟩
              · exact Or.inr ⟨h2.1, hx⟩
            · intro _
              simp
            · intro _
              simp
          · rw [if_neg h2]
            refine ⟨[(splitPair pk).2], by simp, by simp, ?_, ?_, ?_, ?_⟩
            · intro x hx
              simp only [List.mem_singleton] at hx
              simpa [hx] using h1.2
            · intro x hx
              simp only [List.mem_singleton] at hx
              exact Or.inl ⟨h1.1, hx⟩
            · intro _
              simp
            · intro hcur
              rcases not_and_or.mp h2 with hc | hc
              · exact absurd hcur hc
              · rw [not_not] at hc
                exact hc
        · rw [if_neg h1]
          by_cases h2 : (splitPair pk).2 = cur ∧ ¬ (splitPair pk).1 ∈ visited
          · rw [if_pos h2]
            refine ⟨[(splitPair pk).1], by simp, by simp, ?_, ?_, ?_, ?_⟩
            · intro x hx
              simp only [List.mem_singleton] at hx
              simpa [hx] using h2.2
            · intro x hx
              simp only [List.mem_singleton] at hx
              exact Or.inr ⟨h2.1, hx⟩
            · intro hcur
              rcases not_and_or.mp h1 with hc | hc
              · exact absurd hcur hc
              · rw [not_not] at hc
                simp [hc]
            · intro _
              simp
          · rw [if_neg h2]
            refine ⟨[], by simp, by simp, by simp, by simp, ?_, ?_⟩
            · intro hcur
              rcases not_and_or.mp h1 with hc | hc
              · exact absurd hcur hc
              · rw [not_not] at hc
                simpa using hc
            · intro hcur
              rcases not_and_or.mp h2 with hc | hc
              · exact absurd hcur hc
              · rw [not_not] at hc
                simpa using hc
      obtain ⟨e, he, hend, hev, hedge, hcl1, hcl2⟩ := hstep
      rw [he]
      obtain ⟨adds', ha, hand, hav, haedge, hacl⟩ := ih (queue ++ e) (visited ++ e)
      refine ⟨e ++ adds', ?_, ?_, ?_, ?_, ?_⟩
      · have hfold : List.foldl (visitStep cur) (queue ++ e, visited ++ e) rest =
            visitPairs rest cur (queue ++ e) (visited ++ e) := rfl
        rw [hfold, ha]
        simp [List.append_assoc]
      · rw [List.nodup_append]
        refine ⟨hend, hand, ?_⟩
        intro x hx hx'
        exact hav x hx' (by simp [hx])
      · intro x hx
        rcases List.mem_append.mp hx with hx | hx
        · exact hev x hx
        · intro hv
          exact hav x hx (by simp [hv])
      · intro x hx
        rcases List.mem_append.mp hx with hx | hx
        · exact ⟨pk, List.mem_cons_self _ _, hedge x hx⟩
        · obtain ⟨pk', hpk', hor⟩ := haedge x hx
          exact ⟨pk', List.mem_cons_of_mem _ hpk', hor⟩
      · intro pk' hpk'
        rcases List.mem_cons.mp hpk' with hpk' | hpk'
        · subst hpk'
          constructor
          · intro hcur
            have := hcl1 hcur
            rw [List.mem_append] at this
            rcases this with h | h
            · simp [h]
            · simp [List.mem_append, h]
          · intro hcur
            have := hcl2 hcur
            rw [List.mem_append] at this
            rcases this with h | h
            · simp [h]
            · simp [List.mem_append, h]
        · have := hacl pk' hpk'
          constructor
          · intro hcur
            have h3 := this.1 hcur
            simpa [List.append_assoc] using h3
          · intro hcur
            have h3 := this.2 hcur
            simpa [List.append_assoc] using h3


theorem mem_pairEndpoints_left {pairKeys : List String} {pk : String} (h : pk ∈ pairKeys) :
    (splitPair pk).1 ∈ pairEndpoints pairKeys := by
  simp only [pairEndpoints, List.mem_flatMap]
  exact ⟨pk, h, by simp⟩

theorem mem_pairEndpoints_right {pairKeys : List String} {pk : String} (h : pk ∈ pairKeys) :
    (splitPair pk).2 ∈ pairEndpoints pairKeys := by
  simp only [pairEndpoints, List.mem_flatMap]
  exact ⟨pk, h, by simp⟩

theorem filter_not_mem_strict {E v : List String} (a : String) (ha : a ∈ E)
    (hav : ¬ a ∈ v) :
    (E.filter (fun x => ¬ x ∈ (v ++ [a]))).length <
      (E.filter (fun x => ¬ x ∈ v)).length := by
  have hsub : (E.filter (fun x => ¬ x ∈ (v ++ [a]))).Sublist
      (E.filter (fun x => ¬ x ∈ v)) := by
    apply List.monotone_filter_right
    intro x hx
    simp only [decide_eq_true_eq] at hx ⊢
    intro hm
    exact hx (by simp [hm])
  rcases Nat.lt_or_ge (E.filter (fun x => ¬ x ∈ (v ++ [a]))).length
      (E.filter (fun x => ¬ x ∈ v)).length with h | h
  · exact h
  · exfalso
    have heq := hsub.eq_of_length (Nat.le_antisymm hsub.length_le h)
    have hmem : a ∈ E.filter (fun x => ¬ x ∈ v) := by
      rw [List.mem_filter]
      exact ⟨ha, by simpa using hav⟩
    rw [← heq, List.mem_filter] at hmem
    simp at hmem

theorem unvisited_drop (E : List String) :
    ∀ (adds v : List String), adds.Nodup → (∀ x ∈ adds, ¬ x ∈ v ∧ x ∈ E) →
      (E.dedup.filter (fun x => ¬ x ∈ (v ++ adds))).length + adds.length ≤
        (E.dedup.filter (fun x => ¬ x ∈ v)).length := by
  intro adds
  induction adds with
  | nil => intro v _ _; simp
  | cons a rest ih =>
      intro v hnd hmem
      have hstrict : (E.dedup.filter (fun x => ¬ x ∈ (v ++ [a]))).length <
          (E.dedup.filter (fun x => ¬ x ∈ v)).length := by
        apply filter_not_mem_strict a
        · exact List.mem_dedup.mpr (hmem a (List.mem_cons_self _ _)).2
        · exact (hmem a (List.mem_cons_self _ _)).1
      have hstep := ih (v ++ [a]) hnd.of_cons (by
        intro x hx
        refine ⟨?_, (hmem x (List.mem_cons_of_mem _ hx)).2⟩
        intro hm
        rw [List.mem_append] at hm
        rcases hm with hm | hm
        · exact (hmem x (List.mem_cons_of_mem _ hx)).1 hm
        · simp only [List.mem_singleton] at hm
          subst hm
          exact (List.nodup_cons.mp hnd).1 hx)
      have hassoc : v ++ a :: rest = (v ++ [a]) ++ rest := by simp
      rw [hassoc]
      simp only [List.length_cons]
      omega

theorem bfsLoop_spec (pairKeys : List String) {α : Type} (val : String → α) (v0 : α)
    (hval : ∀ pk ∈ pairKeys, val (splitPair pk).1 = val (splitPair pk).2) :
    ∀ (fuel : ℕ) (queue visited cluster : List String),
      queue.length + 2 * ((pairEndpoints pairKeys).dedup.filter
        (fun x => ¬ x ∈ visited)).length < fuel →
      (∀ k ∈ cluster, k ∈ visited) → (∀ k ∈ queue, k ∈ visited) →
      cluster.Nodup →
      (∀ pk ∈ pairKeys, ((splitPair pk).1 ∈ cluster → (splitPair pk).2 ∈ visited) ∧
        ((splitPair pk).2 ∈ cluster → (splitPair pk).1 ∈ visited)) →
      (∀ k ∈ cluster, val k = v0) → (∀ k ∈ queue, val k = v0) →
      (∀ k ∈ queue, k ∈ (bfsLoop pairKeys fuel queue visited cluster).1) ∧
      (∀ k ∈ cluster, k ∈ (bfsLoop pairKeys fuel queue visited cluster).1) ∧
      (∀ k ∈ (bfsLoop pairKeys fuel queue visited cluster).1,
        k ∈ (bfsLoop pairKeys fuel queue visited cluster).2) ∧
      (bfsLoop pairKeys fuel queue visited cluster).1.Nodup ∧
      (∀ k ∈ (bfsLoop pairKeys fuel queue visited cluster).2,
        k ∈ visited ∨ k ∈ (bfsLoop pairKeys fuel queue visited cluster).1) ∧
      (∀ k ∈ visited, k ∈ (bfsLoop pairKeys fuel queue visited cluster).2) ∧
      (∀ pk ∈ pairKeys,
        ((splitPair pk).1 ∈ (bfsLoop pairKeys fuel queue visited cluster).1 →
          (splitPair pk).2 ∈ (bfsLoop pairKeys fuel queue visited cluster).2) ∧
        ((splitPair pk).2 ∈ (bfsLoop pairKeys fuel queue visited cluster).1 →
          (splitPair pk).1 ∈ (bfsLoop pairKeys fuel queue visited cluster).2)) ∧
      (∀ k ∈ (bfsLoop pairKeys fuel queue visited cluster).1,
        k ∈ cluster ∨ k ∈ queue ∨
          (k ∈ pairEndpoints pairKeys ∧ ¬ k ∈ visited)) ∧
      (∀ k ∈ (bfsLoop pairKeys fuel queue visited cluster).1, val k = v0) := by
  intro fuel
  induction fuel with
  | zero => intro queue visited cluster hmeas; omega
  | succ fuel ih =>
      intro queue visited cluster hmeas hsubc hsubq hndc hclosed hvc hvq
      match queue with
      | [] =>
          refine ⟨by simp, by simp [bfsLoop], ?_, by simp only [bfsLoop]; exact hndc, ?_, ?_, ?_, ?_, ?_⟩
          · intro k hk
            simp only [bfsLoop] at hk ⊢
            exact hsubc k hk
          · intro k hk
            simp only [bfsLoop] at hk ⊢
            exact Or.inl hk
          · intro k hk
            simp only [bfsLoop]
            exact hk
          · intro pk hpk
            simp only [bfsLoop]
            exact ⟨fun h => (hclosed pk hpk).1 h, fun h => (hclosed pk hpk).2 h⟩
          · intro k hk
            simp only [bfsLoop] at hk
            exact Or.inl hk
          · intro k hk
            simp only [bfsLoop] at hk
            exact hvc k hk
      | cur :: queue' =>
          obtain ⟨adds, hst, hand, hav, hedge, hacl⟩ :=
            visitPairs_spec cur pairKeys queue' visited
          have hcur_vis : cur ∈ visited := hsubq cur (List.mem_cons_self _ _)
          have hunf : bfsLoop pairKeys (fuel + 1) (cur :: queue') visited cluster =
              bfsLoop pairKeys fuel (queue' ++ adds) (visited ++ adds)
                (if cur ∈ cluster then cluster else cluster ++ [cur]) := by
            simp only [bfsLoop]
            rw [hst]
          rw [hunf]
          set cluster' := if cur ∈ cluster then cluster else cluster ++ [cur] with hcldef
          have hmemc' : ∀ k, k ∈ cluster' ↔ (k ∈ cluster ∨ k = cur) := by
            intro k
            rw [hcldef]
            split
            · rename_i hcc
              constructor
              · exact Or.inl
              · intro h
                rcases h with h | h
                · exact h
                · exact h ▸ hcc
            · simp [List.mem_append]
          have haddsE : ∀ x ∈ adds, ¬ x ∈ visited ∧ x ∈ pairEndpoints pairKeys := by
            intro x hx
            refine ⟨hav x hx, ?_⟩
            obtain ⟨pk, hpk, hor⟩ := hedge x hx
            rcases hor with ⟨_, hx2⟩ | ⟨_, hx2⟩
            · rw [hx2]
              exact mem_pairEndpoints_right hpk
            · rw [hx2]
              exact mem_pairEndpoints_left hpk
          have hdrop := unvisited_drop (pairEndpoints pairKeys) adds visited hand haddsE
          have hmeas' : (queue' ++ adds).length + 2 * ((pairEndpoints pairKeys).dedup.filter
              (fun x => ¬ x ∈ (visited ++ adds))).length < fuel := by
            simp only [List.length_append, List.length_cons] at hmeas ⊢
            omega
          have ihc := ih (queue' ++ adds) (visited ++ adds) cluster' hmeas'
            (by
              intro k hk
              rcases (hmemc' k).mp hk with hk | hk
              · exact List.mem_append_left _ (hsubc k hk)
              · subst hk
                exact List.mem_append_left _ hcur_vis)
            (by
              intro k hk
              rw [List.mem_append] at hk
              rcases hk with hk | hk
              · exact List.mem_append_left _ (hsubq k (List.mem_cons_of_mem _ hk))
              · exact List.mem_append_right _ hk)
            (by
              rw [hcldef]
              split
              · exact hndc
              · rw [List.nodup_append]
                rename_i hcc
                exact ⟨hndc, by simp, by
                  intro x hx hx'
                  simp only [List.mem_singleton] at hx'
                  subst hx'
                  exact hcc hx⟩)
            (by
              intro pk hpk
              constructor
              · intro hm
                rcases (hmemc' _).mp hm with hm | hm
                · exact List.mem_append_left _ ((hclosed pk hpk).1 hm)
                · exact (hacl pk hpk).1 hm
              · intro hm
                rcases (hmemc' _).mp hm with hm | hm
                · exact List.mem_append_left _ ((hclosed pk hpk).2 hm)
                · exact (hacl pk hpk).2 hm)
            (by
              intro k hk
              rcases (hmemc' k).mp hk with hk | hk
              · exact hvc k hk
              · subst hk
                exact hvq k (List.mem_cons_self _ _))
            (by
              intro k hk
              rw [List.mem_append] at hk
              rcases hk with hk | hk
              · exact hvq k (List.mem_cons_of_mem _ hk)
              · obtain ⟨pk, hpk, hor⟩ := hedge k hk
                have hvv := hval pk hpk
                rcases hor with ⟨hc, hx2⟩ | ⟨hc, hx2⟩
                · rw [hx2, ← hvv, hc]
                  exact hvq cur (List.mem_cons_self _ _)
                · rw [hx2, hvv, hc]
                  exact hvq cur (List.mem_cons_self _ _))
          obtain ⟨i1, i2, i3, i4, i5, i6, i7, i8, i9⟩ := ihc
          have hcur_in : cur ∈ cluster' := (hmemc' cur).mpr (Or.inr rfl)
          refine ⟨?_, ?_, i3, i4, ?_, ?_, i7, ?_, i9⟩
          · intro k hk
            rcases List.mem_cons.mp hk with hk | hk
            · subst hk
              exact i2 _ hcur_in
            · exact i1 k (List.mem_append_left _ hk)
          · intro k hk
            exact i2 k ((hmemc' k).mpr (Or.inl hk))
          · intro k hk
            rcases i5 k hk with h | h
            · rw [List.mem_append] at h
              rcases h with h | h
              · exact Or.inl h
              · exact Or.inr (i1 k (List.mem_append_right _ h))
            · exact Or.inr h
          · intro k hk
            exact i6 k (List.mem_append_left _ hk)
          · intro k hk
            rcases i8 k hk with h | h | h
            · rcases (hmemc' k).mp h with h | h
              · exact Or.inl h
              · subst h
                exact Or.inr (Or.inl (List.mem_cons_self _ _))
            · rw [List.mem_append] at h
              rcases h with h | h
              · exact Or.inr (Or.inl (List.mem_cons_of_mem _ h))
              · exact Or.inr (Or.inr ⟨(haddsE k h).2, (haddsE k h).1⟩)
            · rcases h with ⟨he, hnv⟩
              refine Or.inr (Or.inr ⟨he, ?_⟩)
              intro hv
              exact hnv (List.mem_append_left _ hv)


theorem pairEndpoints_length (l : List String) : (pairEndpoints l).length = 2 * l.length := by
  induction l with
  | nil => rfl
  | cons pk rest ih =>
      simp only [pairEndpoints, List.flatMap_cons, List.length_append] at ih ⊢
      simp only [List.length_cons, List.length_nil]
      omega

theorem clusterFold_spec (pairKeys : List String) {α : Type} (val : String → α)
    (hval : ∀ pk ∈ pairKeys, val (splitPair pk).1 = val (splitPair pk).2) :
    ∀ (rest : List String) (visited : List String)
      (clusters : List (String × List String)),
      (∀ pk ∈ rest, pk ∈ pairKeys) →
      ClusterInv pairKeys val visited clusters →
      ClusterInv pairKeys val (rest.foldl (clusterStep pairKeys) (visited, clusters)).1
          (rest.foldl (clusterStep pairKeys) (visited, clusters)).2 ∧
      (∃ extra, (rest.foldl (clusterStep pairKeys) (visited, clusters)).2 =
        clusters ++ extra) ∧
      (∀ pk ∈ rest, ∃ c ∈ (rest.foldl (clusterStep pairKeys) (visited, clusters)).2,
        (splitPair pk).1 ∈ c.2 ∧ (splitPair pk).2 ∈ c.2) := by
  intro rest
  induction rest with
  | nil =>
      intro visited clusters _ hinv
      exact ⟨hinv, ⟨[], by simp⟩, by simp⟩
  | cons pk rest ih =>
      intro visited clusters hsub hinv
      rw [List.foldl_cons]
      have hpkK : pk ∈ pairKeys := hsub pk (List.mem_cons_self _ _)
      by_cases hguard : (splitPair pk).1 ∈ visited ∨ (splitPair pk).2 ∈ visited
      · have hstep : clusterStep pairKeys (visited, clusters) pk = (visited, clusters) := by
          simp only [clusterStep]
          rw [if_pos hguard]
        rw [hstep]
        have hcov : ∃ c ∈ clusters, (splitPair pk).1 ∈ c.2 ∧ (splitPair pk).2 ∈ c.2 := by
          rcases hguard with hg | hg
          · obtain ⟨c, hc, hm⟩ := hinv.vis_mem _ hg
            exact ⟨c, hc, hm, (hinv.closed pk hpkK c hc).1 hm⟩
          · obtain ⟨c, hc, hm⟩ := hinv.vis_mem _ hg
            exact ⟨c, hc, (hinv.closed pk hpkK c hc).2 hm, hm⟩
        obtain ⟨hA, ⟨extra, hB⟩, hC⟩ :=
          ih visited clusters (fun x hx => hsub x (List.mem_cons_of_mem _ hx)) hinv
        refine ⟨hA, ⟨extra, hB⟩, ?_⟩
        intro pk' hpk'
        rcases List.mem_cons.mp hpk' with h | h
        · subst h
          obtain ⟨c, hc, hm⟩ := hcov
          exact ⟨c, by rw [hB]; exact List.mem_append_left _ hc, hm⟩
        · exact hC pk' h
      · push_neg at hguard
        obtain ⟨hp1, hp2⟩ := hguard
        have hbfs := bfsLoop_spec pairKeys val (val (splitPair pk).1) hval
          (4 * pairKeys.length + 3) [(splitPair pk).1, (splitPair pk).2]
          (visited ++ [(splitPair pk).1, (splitPair pk).2]) []
          (by
            have h1 := List.length_filter_le
              (fun x => ¬ x ∈ (visited ++ [(splitPair pk).1, (splitPair pk).2]))
              (pairEndpoints pairKeys).dedup
            have h2 := (List.dedup_sublist (pairEndpoints pairKeys)).length_le
            have h3 := pairEndpoints_length pairKeys
            simp only [List.length_cons, List.length_nil]
            omega)
          (by simp)
          (by
            intro k hk
            exact List.mem_append_right _ hk)
          (by simp)
          (by
            intro pk' _
            exact ⟨fun h => absurd h (List.not_mem_nil _),
              fun h => absurd h (List.not_mem_nil _)⟩)
          (by simp)
          (by
            intro k hk
            simp only [List.mem_cons, List.not_mem_nil, or_false] at hk
            rcases hk with hk | hk
            · rw [hk]
            · rw [hk]
              exact (hval pk hpkK).symm)
        obtain ⟨i1, i2, i3, i4, i5, i6, i7, i8, i9⟩ := hbfs
        set r := bfsLoop pairKeys (4 * pairKeys.length + 3)
          [(splitPair pk).1, (splitPair pk).2]
          (visited ++ [(splitPair pk).1, (splitPair pk).2]) [] with hrdef
        have hstep : clusterStep pairKeys (visited, clusters) pk =
            (r.2, clusters ++ [((splitPair pk).1, r.1)]) := by
          simp only [clusterStep]
          rw [if_neg (not_or.mpr ⟨hp1, hp2⟩)]
        rw [hstep]
        have hp1r : (splitPair pk).1 ∈ r.1 := i1 _ (List.mem_cons_self _ _)
        have hp2r : (splitPair pk).2 ∈ r.1 :=
          i1 _ (List.mem_cons_of_mem _ (List.mem_cons_self _ _))
        have r1_fresh : ∀ k ∈ r.1, ¬ k ∈ visited := by
          intro k hk hv
          rcases i8 k hk with h | h | h
          · exact List.not_mem_nil _ h
          · simp only [List.mem_cons, List.not_mem_nil, or_false] at h
            rcases h with h | h
            · exact hp1 (h ▸ hv)
            · exact hp2 (h ▸ hv)
          · exact h.2 (List.mem_append_left _ hv)
        have hinv' : ClusterInv pairKeys val r.2
            (clusters ++ [((splitPair pk).1, r.1)]) := by
          constructor
          · intro k hk
            rcases i5 k hk with h | h
            · rw [List.mem_append] at h
              rcases h with h | h
              · obtain ⟨c, hc, hm⟩ := hinv.vis_mem k h
                exact ⟨c, List.mem_append_left _ hc, hm⟩
              · simp only [List.mem_cons, List.not_mem_nil, or_false] at h
                refine ⟨((splitPair pk).1, r.1),
                  List.mem_append_right _ (List.mem_singleton.mpr rfl), ?_⟩
                rcases h with h | h
                · exact h ▸ hp1r
                · exact h ▸ hp2r
            · exact ⟨((splitPair pk).1, r.1),
                List.mem_append_right _ (List.mem_singleton.mpr rfl), h⟩
          · intro c hc k hk
            rw [List.mem_append] at hc
            rcases hc with hc | hc
            · exact i6 k (List.mem_append_left _ (hinv.mem_vis c hc k hk))
            · simp only [List.mem_singleton] at hc
              subst hc
              exact i3 k hk
          · intro c hc
            rw [List.mem_append] at hc
            rcases hc with hc | hc
            · exact hinv.nodup c hc
            · simp only [List.mem_singleton] at hc
              subst hc
              exact i4
          · rw [List.pairwise_append]
            refine ⟨hinv.disj, by simp, ?_⟩
            intro c1 hc1 c2 hc2 k hk
            simp only [List.mem_singleton] at hc2
            subst hc2
            intro hk2
            exact r1_fresh k hk2 (hinv.mem_vis c1 hc1 k hk)
          · intro pk' hpk' c hc
            rw [List.mem_append] at hc
            rcases hc with hc | hc
            · exact hinv.closed pk' hpk' c hc
            · simp only [List.mem_singleton] at hc
              subst hc
              constructor
              · intro hm
                have h2 := (i7 pk' hpk').1 hm
                rcases i5 _ h2 with h | h
                · rw [List.mem_append] at h
                  rcases h with h | h
                  · exfalso
                    obtain ⟨c0, hc0, hm0⟩ := hinv.vis_mem _ h
                    have := (hinv.closed pk' hpk' c0 hc0).2 hm0
                    exact r1_fresh _ hm (hinv.mem_vis c0 hc0 _ this)
                  · simp only [List.mem_cons, List.not_mem_nil, or_false] at h
                    rcases h with h | h
                    · exact h ▸ hp1r
                    · exact h ▸ hp2r
                · exact h
              · intro hm
                have h2 := (i7 pk' hpk').2 hm
                rcases i5 _ h2 with h | h
                · rw [List.mem_append] at h
                  rcases h with h | h
                  · exfalso
                    obtain ⟨c0, hc0, hm0⟩ := hinv.vis_mem _ h
                    have := (hinv.closed pk' hpk' c0 hc0).1 hm0
                    exact r1_fresh _ hm (hinv.mem_vis c0 hc0 _ this)
                  · simp only [List.mem_cons, List.not_mem_nil, or_false] at h
                    rcases h with h | h
                    · exact h ▸ hp1r
                    · exact h ▸ hp2r
                · exact h
          · intro c hc
            rw [List.mem_append] at hc
            rcases hc with hc | hc
            · exact hinv.founder c hc
            · simp only [List.mem_singleton] at hc
              subst hc
              exact ⟨pk, hpkK, hp1r, hp2r⟩
          · intro c hc k hk
            rw [List.mem_append] at hc
            rcases hc with hc | hc
            · exact hinv.endpoints c hc k hk
            · simp only [List.mem_singleton] at hc
              subst hc
              rcases i8 k hk with h | h | h
              · exact absurd h (List.not_mem_nil _)
              · simp only [List.mem_cons, List.not_mem_nil, or_false] at h
                rcases h with h | h
                · exact h ▸ mem_pairEndpoints_left hpkK
                · exact h ▸ mem_pairEndpoints_right hpkK
              · exact h.1
          · intro c hc k1 hk1 k2 hk2
            rw [List.mem_append] at hc
            rcases hc with hc | hc
            · exact hinv.val_const c hc k1 hk1 k2 hk2
            · simp only [List.mem_singleton] at hc
              subst hc
              rw [i9 k1 hk1, i9 k2 hk2]
        obtain ⟨hA, ⟨extra, hB⟩, hC⟩ := ih r.2 (clusters ++ [((splitPair pk).1, r.1)])
          (fun x hx => hsub x (List.mem_cons_of_mem _ hx)) hinv'
        refine ⟨hA, ⟨[((splitPair pk).1, r.1)] ++ extra, by rw [hB]; simp⟩, ?_⟩
        intro pk' hpk'
        rcases List.mem_cons.mp hpk' with h | h
        · subst h
          refine ⟨((splitPair pk').1, r.1), ?_, hp1r, hp2r⟩
          rw [hB]
          exact List.mem_append_left _
            (List.mem_append_right _ (List.mem_singleton.mpr rfl))
        · exact hC pk' h

theorem buildClusters_spec (pairKeys : List String) {α : Type} (val : String → α)
    (hval : ∀ pk ∈ pairKeys, val (splitPair pk).1 = val (splitPair pk).2) :
    ClusterInv pairKeys val
        (pairKeys.foldl (clusterStep pairKeys) ([], [])).1 (buildClusters pairKeys) ∧
      ∀ pk ∈ pairKeys, ∃ c ∈ buildClusters pairKeys,
        (splitPair pk).1 ∈ c.2 ∧ (splitPair pk).2 ∈ c.2 := by
  have h := clusterFold_spec pairKeys val hval pairKeys [] [] (fun _ h => h)
    (by
      constructor <;> simp)
  exact ⟨h.1, h.2.2⟩


theorem profKey_create (c : ColumnData) :
    profKey (createColumnProfile c) = colKey c := rfl

theorem profilesOf_eq_map (files : List UploadedFile) :
    profilesOf files = (allColumnsOf files).map createColumnProfile := by
  unfold profilesOf allColumnsOf
  induction files with
  | nil => rfl
  | cons f fs ih => simp only [List.flatMap_cons, List.map_append, ih]

theorem profKeys_eq (files : List UploadedFile) :
    (profilesOf files).map profKey = (allColumnsOf files).map colKey := by
  rw [profilesOf_eq_map, List.map_map]
  exact List.map_congr_left (fun c _ => profKey_create c)

theorem lookupProfile_self (profiles : List ColumnProfile)
    (hnd : (profiles.map profKey).Nodup) {p : ColumnProfile} (hp : p ∈ profiles) :
    lookupProfile profiles (profKey p) = p := by
  unfold lookupProfile
  have hsome : (profiles.reverse.find? (fun q => profKey q = profKey p)).isSome := by
    rw [List.find?_isSome]
    refine ⟨p, List.mem_reverse.mpr hp, ?_⟩
    simp
  obtain ⟨q, hq⟩ := Option.isSome_iff_exists.mp hsome
  rw [hq, Option.getD_some]
  have hqmem : q ∈ profiles := List.mem_reverse.mp (List.mem_of_find?_eq_some hq)
  have hqkey : profKey q = profKey p := by
    have h := List.find?_some hq
    simpa using h
  exact List.inj_on_of_nodup_map hnd hqmem hp hqkey

theorem lookup_colKey (files : List UploadedFile) (H : KeysOK files)
    {c : ColumnData} (hc : c ∈ allColumnsOf files) :
    lookupProfile (profilesOf files) (colKey c) = createColumnProfile c := by
  have hp : createColumnProfile c ∈ profilesOf files := by
    rw [profilesOf_eq_map]
    exact List.mem_map_of_mem _ hc
  have h := lookupProfile_self (profilesOf files)
    (by rw [profKeys_eq]; exact H.1) hp
  rwa [profKey_create] at h

theorem colKey_inj (files : List UploadedFile) (H : KeysOK files) {c1 c2 : ColumnData}
    (h1 : c1 ∈ allColumnsOf files) (h2 : c2 ∈ allColumnsOf files)
    (hk : colKey c1 = colKey c2) : c1 = c2 :=
  List.inj_on_of_nodup_map H.1 h1 h2 hk

theorem calcConf_type_gate (p1 p2 : ColumnProfile)
    (h : p1.source.dataType ≠ p2.source.dataType) : calculateConfidence p1 p2 = 0 := by
  unfold calculateConfidence
  rw [if_pos h]

theorem mem_pairKeys (profiles : List ColumnProfile) {pk : String}
    (h : pk ∈ (mkBestPairs profiles).map (fun kv => kv.1)) :
    ∃ kv ∈ mkBestPairs profiles, kv.1 = pk := by
  obtain ⟨kv, hkv, heq⟩ := List.mem_map.mp h
  exact ⟨kv, hkv, heq⟩

theorem pairKeys_endpoints (files : List UploadedFile) (H : KeysOK files) :
    ∀ pk ∈ (mkBestPairs (profilesOf files)).map (fun kv => kv.1),
      ∃ cp cq, cp ∈ allColumnsOf files ∧ cq ∈ allColumnsOf files ∧
        cq.fileId ≠ cp.fileId ∧ cp.dataType = cq.dataType ∧
        ((splitPair pk).1 = colKey cp ∧ (splitPair pk).2 = colKey cq ∨
         (splitPair pk).1 = colKey cq ∧ (splitPair pk).2 = colKey cp) := by
  intro pk hpk
  obtain ⟨kv, hkv, hfst⟩ := mem_pairKeys _ hpk
  obtain ⟨hsc, p, q, hp, hq, hfid, hkey, hval2⟩ := mkBestPairs_spec _ kv hkv
  rw [profilesOf_eq_map] at hp hq
  obtain ⟨cp, hcp, hpe⟩ := List.mem_map.mp hp
  obtain ⟨cq, hcq, hqe⟩ := List.mem_map.mp hq
  subst hpe
  subst hqe
  refine ⟨cp, cq, hcp, hcq, hfid, ?_, ?_⟩
  · by_contra hne
    have h0 := calcConf_type_gate (createColumnProfile cp) (createColumnProfile cq) hne
    rw [hval2] at hsc
    simp only at hsc
    rw [h0] at hsc
    exact absurd hsc (by decide)
  · subst hfst
    rw [hkey]
    have hpk1 : ¬ '|' ∈ (profKey (createColumnProfile cp)).toList := by
      rw [profKey_create]
      exact H.2 cp hcp
    have hpk2 : ¬ '|' ∈ (profKey (createColumnProfile cq)).toList := by
      rw [profKey_create]
      exact H.2 cq hcq
    rcases splitPair_canonical _ _ hpk1 hpk2 with h | h
    · rw [h]
      exact Or.inl ⟨rfl, rfl⟩
    · rw [h]
      exact Or.inr ⟨rfl, rfl⟩

theorem pairKeys_hval (files : List UploadedFile) (H : KeysOK files) :
    ∀ pk ∈ (mkBestPairs (profilesOf files)).map (fun kv => kv.1),
      (lookupProfile (profilesOf files) (splitPair pk).1).source.dataType =
      (lookupProfile (profilesOf files) (splitPair pk).2).source.dataType := by
  intro pk hpk
  obtain ⟨cp, cq, hcp, hcq, _, hdt, hsp | hsp⟩ := pairKeys_endpoints files H pk hpk
  · rw [hsp.1, hsp.2, lookup_colKey files H hcp, lookup_colKey files H hcq]
    exact hdt
  · rw [hsp.1, hsp.2, lookup_colKey files H hcq, lookup_colKey files H hcp]
    exact hdt.symm

theorem mem_pairEndpoints_elim {pairKeys : List String} {k : String}
    (h : k ∈ pairEndpoints pairKeys) :
    ∃ pk ∈ pairKeys, k = (splitPair pk).1 ∨ k = (splitPair pk).2 := by
  unfold pairEndpoints at h
  simp only [List.mem_flatMap, List.mem_cons, List.not_mem_nil, or_false] at h
  obtain ⟨pk, hpk, hk⟩ := h
  exact ⟨pk, hpk, hk⟩

theorem clusterKeys_are_colKeys (files : List UploadedFile) (H : KeysOK files)
    {k : String}
    (hk : k ∈ pairEndpoints ((mkBestPairs (profilesOf files)).map (fun kv => kv.1))) :
    k ∈ (allColumnsOf files).map colKey := by
  obtain ⟨pk, hpk, hk⟩ := mem_pairEndpoints_elim hk
  obtain ⟨cp, cq, hcp, hcq, _, _, hsp | hsp⟩ := pairKeys_endpoints files H pk hpk <;>
    rcases hk with hk | hk
  · rw [hk, hsp.1]
    exact List.mem_map_of_mem _ hcp
  · rw [hk, hsp.2]
    exact List.mem_map_of_mem _ hcq
  · rw [hk, hsp.1]
    exact List.mem_map_of_mem _ hcq
  · rw [hk, hsp.2]
    exact List.mem_map_of_mem _ hcp

theorem lookup_key_recover (files : List UploadedFile) (H : KeysOK files)
    {k : String} (hk : k ∈ (allColumnsOf files).map colKey) :
    (lookupProfile (profilesOf files) k).source.fileId ++ "-" ++
      (lookupProfile (profilesOf files) k).source.originalName = k := by
  obtain ⟨c, hc, hke⟩ := List.mem_map.mp hk
  subst hke
  rw [lookup_colKey files H hc]
  rfl


theorem insertDesc_perm (m : Match) : ∀ l : List Match, (insertDesc m l).Perm (m :: l)
  | [] => List.Perm.refl _
  | x :: xs => by
      unfold insertDesc
      split
      · exact List.Perm.refl _
      · exact ((insertDesc_perm m xs).cons x).trans (List.Perm.swap m x xs)

theorem sortDescending_perm (l : List Match) : (sortDescending l).Perm l := by
  unfold sortDescending
  induction l with
  | nil => exact List.Perm.refl _
  | cons x xs ih =>
      rw [List.foldr_cons]
      exact (insertDesc_perm x _).trans (ih.cons x)

theorem exists_mem_enum {α : Type} {l : List α} {c : α} (h : c ∈ l) :
    ∃ i, (i, c) ∈ l.enum := by
  have h2 : c ∈ l.enum.map Prod.snd := by
    rw [List.enum_map_snd]
    exact h
  obtain ⟨ic, hic, he⟩ := List.mem_map.mp h2
  refine ⟨ic.1, ?_⟩
  rw [← he]
  exact hic

theorem enum_pairwise {α : Type} {R : α → α → Prop} {l : List α} (h : l.Pairwise R) :
    l.enum.Pairwise (fun a b => R a.2 b.2) := by
  have h2 : (l.enum.map Prod.snd).Pairwise R := by
    rw [List.enum_map_snd]
    exact h
  exact List.pairwise_map.mp h2

theorem enum_flatMap {α β : Type} (F : α → List β) :
    ∀ (l : List α) (n : ℕ),
      (List.enumFrom n l).flatMap (fun ic => F ic.2) = l.flatMap F := by
  intro l
  induction l with
  | nil => intro n; rfl
  | cons x xs ih =>
      intro n
      rw [List.enumFrom_cons, List.flatMap_cons, List.flatMap_cons, ih]

theorem clusters_shared_eq : ∀ (clusters : List (String × List String)),
    List.Pairwise (fun c1 c2 => ∀ k, k ∈ c1.2 → ¬ k ∈ c2.2) clusters →
    ∀ c1 ∈ clusters, ∀ c2 ∈ clusters, ∀ k, k ∈ c1.2 → k ∈ c2.2 → c1 = c2 := by
  intro clusters
  induction clusters with
  | nil =>
      intro _ c1 h
      exact absurd h (List.not_mem_nil _)
  | cons c rest ih =>
      intro hdisj c1 h1 c2 h2 k hk1 hk2
      rcases List.mem_cons.mp h1 with h1e | h1m
      · rcases List.mem_cons.mp h2 with h2e | h2m
        · rw [h1e, h2e]
        · exfalso
          rw [h1e] at hk1
          exact (List.pairwise_cons.mp hdisj).1 c2 h2m k hk1 hk2
      · rcases List.mem_cons.mp h2 with h2e | h2m
        · exfalso
          rw [h2e] at hk2
          exact (List.pairwise_cons.mp hdisj).1 c1 h1m k hk2 hk1
        · exact ih (List.pairwise_cons.mp hdisj).2 c1 h1m c2 h2m k hk1 hk2

theorem two_le_length_of_ne {l : List String} {a b : String}
    (ha : a ∈ l) (hb : b ∈ l) (hne : a ≠ b) : 2 ≤ l.length := by
  match l with
  | [] => exact absurd ha (List.not_mem_nil _)
  | [x] =>
      simp only [List.mem_singleton] at ha hb
      exact absurd (ha.trans hb.symm) hne
  | x :: y :: rest =>
      simp only [List.length_cons]
      omega

theorem flatKeys_nodup : ∀ (clusters : List (String × List String)),
    (∀ c ∈ clusters, c.2.Nodup) →
    List.Pairwise (fun c1 c2 => ∀ k, k ∈ c1.2 → ¬ k ∈ c2.2) clusters →
    (clusters.flatMap (fun c => c.2)).Nodup := by
  intro clusters
  induction clusters with
  | nil => intro _ _; exact List.nodup_nil
  | cons c rest ih =>
      intro hnd hdisj
      rw [List.flatMap_cons, List.nodup_append]
      obtain ⟨hd, hp⟩ := List.pairwise_cons.mp hdisj
      refine ⟨hnd c (List.mem_cons_self _ _),
        ih (fun x hx => hnd x (List.mem_cons_of_mem _ hx)) hp, ?_⟩
      intro a ha hb
      obtain ⟨c2, hc2, ha2⟩ := List.mem_flatMap.mp hb
      exact hd c2 hc2 a ha ha2

theorem clusterScore_eq (bps : List (String × (String × Q))) (ck : List String) :
    clusterScore bps ck =
      ((bps.filter (inCluster ck)).foldl (fun a kv => a + kv.2.2) 0,
        (bps.filter (inCluster ck)).length) := by
  unfold clusterScore
  suffices h : ∀ (l : List (String × (String × Q))) (s : Q) (n : ℕ),
      l.foldl (fun st kv =>
        let p := splitPair kv.1
        if p.1 ∈ ck ∧ p.2 ∈ ck then (st.1 + kv.2.2, st.2 + 1) else st) (s, n) =
      ((l.filter (inCluster ck)).foldl (fun a kv => a + kv.2.2) s,
        n + (l.filter (inCluster ck)).length) by
    rw [h bps 0 0]
    simp
  intro l
  induction l with
  | nil => intro s n; simp
  | cons kv l ih =>
      intro s n
      rw [List.foldl_cons]
      by_cases hc : (splitPair kv.1).1 ∈ ck ∧ (splitPair kv.1).2 ∈ ck
      · have hf : (kv :: l).filter (inCluster ck) = kv :: l.filter (inCluster ck) := by
          rw [List.filter_cons]
          simp [inCluster, hc]
        simp only [if_pos hc]
        rw [ih, hf]
        simp only [List.foldl_cons, List.length_cons, Prod.mk.injEq, true_and]
        omega
      · have hf : (kv :: l).filter (inCluster ck) = l.filter (inCluster ck) := by
          rw [List.filter_cons]
          simp [inCluster, hc]
        simp only [if_neg hc]
        rw [ih, hf]

theorem foldl_add_toRat : ∀ (l : List (String × (String × Q))) (s : Q),
    (l.foldl (fun a kv => a + kv.2.2) s).toRat =
      s.toRat + (l.map (fun kv => kv.2.2.toRat)).sum := by
  intro l
  induction l with
  | nil => intro s; simp
  | cons kv l ih =>
      intro s
      rw [List.foldl_cons, ih, List.map_cons, List.sum_cons, Q.toRat_add]
      ring

theorem toRat_065 : (0.65 : Q).toRat = 13/20 := by
  show (OfScientific.ofScientific 65 true 2 : Q).toRat = 13/20
  rw [Q.toRat_scientific_true]
  norm_num

theorem score_sum_le (l : List (String × (String × Q)))
    (hub : ∀ kv ∈ l, kv.2.2 ≤ 1) :
    (l.map (fun kv => kv.2.2.toRat)).sum ≤ (l.length : ℚ) := by
  induction l with
  | nil => simp
  | cons kv rest ih =>
      simp only [List.map_cons, List.sum_cons, List.length_cons]
      have h1 : kv.2.2.toRat ≤ 1 := by
        have h := (Q.le_iff _ _).mp (hub kv (List.mem_cons_self _ _))
        rwa [Q.toRat_one] at h
      have h2 := ih (fun x hx => hub x (List.mem_cons_of_mem _ hx))
      push_cast
      linarith

theorem score_sum_ge (l : List (String × (String × Q)))
    (hlb : ∀ kv ∈ l, (0.65 : Q) < kv.2.2) :
    (13 : ℚ)/20 * l.length ≤ (l.map (fun kv => kv.2.2.toRat)).sum := by
  induction l with
  | nil => simp
  | cons kv rest ih =>
      simp only [List.map_cons, List.sum_cons, List.length_cons]
      have h1 : (13:ℚ)/20 < kv.2.2.toRat := by
        have h := (Q.lt_iff _ _).mp (hlb kv (List.mem_cons_self _ _))
        rwa [toRat_065] at h
      have h2 := ih (fun x hx => hlb x (List.mem_cons_of_mem _ hx))
      push_cast
      linarith

theorem mkMatch_confidence (profiles : List ColumnProfile) (ck : List String)
    (hfound : ∃ pk ∈ (mkBestPairs profiles).map (fun kv => kv.1),
      (splitPair pk).1 ∈ ck ∧ (splitPair pk).2 ∈ ck) (idx : ℕ) :
    (0.65 : Q) < (mkMatch profiles (mkBestPairs profiles) idx ck).programmaticConfidence ∧
      (mkMatch profiles (mkBestPairs profiles) idx ck).programmaticConfidence ≤ 1 := by
  obtain ⟨pk, hpk, h1, h2⟩ := hfound
  obtain ⟨kv0, hkv0, hfst⟩ := mem_pairKeys profiles hpk
  have hkv0F : kv0 ∈ (mkBestPairs profiles).filter (inCluster ck) := by
    refine List.mem_filter.mpr ⟨hkv0, ?_⟩
    simp only [inCluster, hfst]
    exact decide_eq_true ⟨h1, h2⟩
  have hFne : (mkBestPairs profiles).filter (inCluster ck) ≠ [] := by
    intro h
    rw [h] at hkv0F
    exact List.not_mem_nil _ hkv0F
  have hpos : 0 < ((mkBestPairs profiles).filter (inCluster ck)).length :=
    List.length_pos.mpr hFne
  have hcp : (mkMatch profiles (mkBestPairs profiles) idx ck).programmaticConfidence =
      (((mkBestPairs profiles).filter (inCluster ck)).foldl (fun a kv => a + kv.2.2) 0) /
        Q.ofN ((mkBestPairs profiles).filter (inCluster ck)).length := by
    simp only [mkMatch]
    rw [clusterScore_eq]
    simp only
    rw [if_pos hpos]
  have hlbF : ∀ kv ∈ (mkBestPairs profiles).filter (inCluster ck), (0.65 : Q) < kv.2.2 :=
    fun kv hkv => (mkBestPairs_spec profiles kv (List.mem_of_mem_filter hkv)).1
  have hubF : ∀ kv ∈ (mkBestPairs profiles).filter (inCluster ck), kv.2.2 ≤ 1 := by
    intro kv hkv
    obtain ⟨_, p, q, _, _, _, _, hv⟩ :=
      mkBestPairs_spec profiles kv (List.mem_of_mem_filter hkv)
    rw [hv]
    exact calculateConfidence_le_one p q
  have hS := foldl_add_toRat ((mkBestPairs profiles).filter (inCluster ck)) 0
  rw [Q.toRat_zero, zero_add] at hS
  have hge := score_sum_ge _ hlbF
  have hle := score_sum_le _ hubF
  have hnQ : (0:ℚ) < (((mkBestPairs profiles).filter (inCluster ck)).length : ℚ) := by
    exact_mod_cast hpos
  constructor
  · rw [Q.lt_iff, hcp, Q.toRat_div, Q.toRat_ofN, toRat_065, hS]
    rw [lt_div_iff hnQ]
    obtain ⟨x, t, hxt⟩ := List.exists_cons_of_ne_nil hFne
    rw [hxt]
    simp only [List.map_cons, List.sum_cons, List.length_cons]
    have hx : (13:ℚ)/20 < x.2.2.toRat := by
      have h := (Q.lt_iff _ _).mp (hlbF x (by rw [hxt]; exact List.mem_cons_self _ _))
      rwa [toRat_065] at h
    have ht := score_sum_ge t
      (fun kv hkv => hlbF kv (by rw [hxt]; exact List.mem_cons_of_mem _ hkv))
    push_cast
    linarith
  · rw [Q.le_iff, hcp, Q.toRat_div, Q.toRat_ofN, Q.toRat_one, hS]
    rw [div_le_one hnQ]
    exact hle


theorem generateMatches_small (files : List UploadedFile) (h : files.length < 2) :
    generateMatches files = { matches' := [], unmatched := [] } := by
  unfold generateMatches
  rw [if_pos h]

theorem generateMatches_matches (files : List UploadedFile) (h : ¬ files.length < 2) :
    (generateMatches files).matches' =
      sortDescending
        ((buildClusters ((mkBestPairs (profilesOf files)).map (fun kv => kv.1))).enum.map
          (fun ic => mkMatch (profilesOf files) (mkBestPairs (profilesOf files))
            ic.1 ic.2.2)) := by
  unfold generateMatches
  rw [if_neg h]

theorem generateMatches_unmatched (files : List UploadedFile) (h : ¬ files.length < 2) :
    (generateMatches files).unmatched =
      (allColumnsOf files).filter (fun c => ¬ colKey c ∈
        (buildClusters ((mkBestPairs (profilesOf files)).map (fun kv => kv.1))).flatMap
          (fun c => c.2)) := by
  unfold generateMatches
  rw [if_neg h]

theorem mkMatch_columns (profiles : List ColumnProfile)
    (bps : List (String × (String × Q))) (idx : ℕ) (ck : List String) :
    (mkMatch profiles bps idx ck).columns =
      ck.map (fun k =>
        { fileId := (lookupProfile profiles k).source.fileId,
          fileName := (lookupProfile profiles k).source.fileName,
          columnName := (lookupProfile profiles k).source.originalName }) := by
  simp only [mkMatch]
  rw [List.map_map]
  rfl

theorem match_columns_keys (files : List UploadedFile) (H : KeysOK files)
    {ck : List String} (hck : ∀ k ∈ ck, k ∈ (allColumnsOf files).map colKey)
    (bps : List (String × (String × Q))) (idx : ℕ) :
    ((mkMatch (profilesOf files) bps idx ck).columns).map cimKey = ck := by
  rw [mkMatch_columns, List.map_map]
  have hid : ∀ k ∈ ck, (cimKey ∘ fun k =>
      ({ fileId := (lookupProfile (profilesOf files) k).source.fileId,
         fileName := (lookupProfile (profilesOf files) k).source.fileName,
         columnName := (lookupProfile (profilesOf files) k).source.originalName } :
        ColumnInMatch)) k = k := by
    intro k hk
    exact lookup_key_recover files H (hck k hk)
  calc ck.map _ = ck.map id := List.map_congr_left hid
  _ = ck := List.map_id ck

theorem map_colKey_filter (P : String → Bool) (l : List ColumnData) :
    (l.filter (fun c => P (colKey c))).map colKey = (l.map colKey).filter P := by
  induction l with
  | nil => rfl
  | cons c cs ih =>
      rw [List.filter_cons, List.map_cons, List.filter_cons]
      by_cases h : P (colKey c)
      · rw [if_pos h, if_pos h, List.map_cons, ih]
      · rw [if_neg h, if_neg h, ih]


theorem clusters_inv (files : List UploadedFile) (H : KeysOK files) :
    ClusterInv ((mkBestPairs (profilesOf files)).map (fun kv => kv.1))
      (fun k => (lookupProfile (profilesOf files) k).source.dataType)
      ((((mkBestPairs (profilesOf files)).map (fun kv => kv.1)).foldl
        (clusterStep ((mkBestPairs (profilesOf files)).map (fun kv => kv.1))) ([], [])).1)
      (buildClusters ((mkBestPairs (profilesOf files)).map (fun kv => kv.1))) :=
  (buildClusters_spec _ (fun k => (lookupProfile (profilesOf files) k).source.dataType)
    (pairKeys_hval files H)).1

theorem clusters_cover (files : List UploadedFile) (H : KeysOK files) :
    ∀ pk ∈ (mkBestPairs (profilesOf files)).map (fun kv => kv.1),
      ∃ c ∈ buildClusters ((mkBestPairs (profilesOf files)).map (fun kv => kv.1)),
        (splitPair pk).1 ∈ c.2 ∧ (splitPair pk).2 ∈ c.2 :=
  (buildClusters_spec _ (fun k => (lookupProfile (profilesOf files) k).source.dataType)
    (pairKeys_hval files H)).2

theorem matches_from_cluster (files : List UploadedFile) (h2 : ¬ files.length < 2)
    {m : Match} (hm : m ∈ (generateMatches files).matches') :
    ∃ ic : ℕ × (String × List String),
      ic.2 ∈ buildClusters ((mkBestPairs (profilesOf files)).map (fun kv => kv.1)) ∧
      m = mkMatch (profilesOf files) (mkBestPairs (profilesOf files)) ic.1 ic.2.2 := by
  rw [generateMatches_matches files h2] at hm
  have hm2 := (sortDescending_perm _).subset hm
  obtain ⟨ic, hic, hme⟩ := List.mem_map.mp hm2
  refine ⟨ic, ?_, hme.symm⟩
  have hmem := List.mem_enum hic
  rw [hmem.2]
  exact List.getElem_mem _

theorem cluster_to_match (files : List UploadedFile) (h2 : ¬ files.length < 2)
    {c : String × List String}
    (hc : c ∈ buildClusters ((mkBestPairs (profilesOf files)).map (fun kv => kv.1))) :
    ∃ i, mkMatch (profilesOf files) (mkBestPairs (profilesOf files)) i c.2 ∈
      (generateMatches files).matches' := by
  obtain ⟨i, hi⟩ := exists_mem_enum hc
  refine ⟨i, ?_⟩
  rw [generateMatches_matches files h2]
  rw [(sortDescending_perm _).mem_iff]
  exact List.mem_map.mpr ⟨(i, c), hi, rfl⟩

theorem cluster_keys_colKeys (files : List UploadedFile) (H : KeysOK files)
    {c : String × List String}
    (hc : c ∈ buildClusters ((mkBestPairs (profilesOf files)).map (fun kv => kv.1))) :
    ∀ k ∈ c.2, k ∈ (allColumnsOf files).map colKey := by
  intro k hk
  exact clusterKeys_are_colKeys files H ((clusters_inv files H).endpoints c hc k hk)

theorem flatMap_map_gen {α β γ : Type} (g : α → β) (F : β → List γ) :
    ∀ l : List α, (l.map g).flatMap F = l.flatMap (fun a => F (g a)) := by
  intro l
  induction l with
  | nil => rfl
  | cons x xs ih => rw [List.map_cons, List.flatMap_cons, List.flatMap_cons, ih]

theorem flatMap_congr_mem {α γ : Type} (F G : α → List γ) :
    ∀ l : List α, (∀ a ∈ l, F a = G a) → l.flatMap F = l.flatMap G := by
  intro l
  induction l with
  | nil => intro _; rfl
  | cons x xs ih =>
      intro h
      rw [List.flatMap_cons, List.flatMap_cons, h x (List.mem_cons_self _ _),
        ih (fun a ha => h a (List.mem_cons_of_mem _ ha))]

theorem perm_flatMap {α γ : Type} (F : α → List γ) {l1 l2 : List α} (h : l1.Perm l2) :
    (l1.flatMap F).Perm (l2.flatMap F) := by
  induction h with
  | nil => exact List.Perm.refl _
  | cons x _ ih =>
      rw [List.flatMap_cons, List.flatMap_cons]
      exact ih.append_left (F x)
  | swap x y l =>
      rw [List.flatMap_cons, List.flatMap_cons, List.flatMap_cons, List.flatMap_cons,
        ← List.append_assoc, ← List.append_assoc]
      exact (List.perm_append_comm).append_right _
  | trans _ _ ih1 ih2 => exact ih1.trans ih2

theorem matched_keys_perm (files : List UploadedFile) (H : KeysOK files)
    (h2 : ¬ files.length < 2) :
    ((generateMatches files).matches'.flatMap (fun m => m.columns.map cimKey)).Perm
      ((buildClusters ((mkBestPairs (profilesOf files)).map (fun kv => kv.1))).flatMap
        (fun c => c.2)) := by
  rw [generateMatches_matches files h2]
  have h1 := perm_flatMap (fun m => m.columns.map cimKey) (sortDescending_perm
    ((buildClusters ((mkBestPairs (profilesOf files)).map (fun kv => kv.1))).enum.map
      (fun ic => mkMatch (profilesOf files) (mkBestPairs (profilesOf files))
        ic.1 ic.2.2)))
  refine h1.trans ?_
  rw [flatMap_map_gen]
  have h3 := flatMap_congr_mem
    (fun ic : ℕ × (String × List String) =>
      (mkMatch (profilesOf files) (mkBestPairs (profilesOf files))
        ic.1 ic.2.2).columns.map cimKey)
    (fun ic : ℕ × (String × List String) => ic.2.2)
    (buildClusters ((mkBestPairs (profilesOf files)).map (fun kv => kv.1))).enum
    (by
      intro ic hic
      have hmem := List.mem_enum hic
      have hc : ic.2 ∈ buildClusters
          ((mkBestPairs (profilesOf files)).map (fun kv => kv.1)) := by
        rw [hmem.2]
        exact List.getElem_mem _
      exact match_columns_keys files H (cluster_keys_colKeys files H hc) _ ic.1)
  rw [h3]
  have h4 : (buildClusters ((mkBestPairs (profilesOf files)).map (fun kv => kv.1))).enum =
      List.enumFrom 0
        (buildClusters ((mkBestPairs (profilesOf files)).map (fun kv => kv.1))) := rfl
  rw [h4, enum_flatMap (fun c : String × List String => c.2)]


theorem find?_map_set (k : String) (v : List Row) :
    ∀ m : List (String × List Row), m.any (fun kv => kv.1 = k) = true →
      (m.map (fun kv => if kv.1 = k then (k, v) else kv)).find? (fun kv => kv.1 = k) =
        some (k, v) := by
  intro m
  induction m with
  | nil => intro h; simp at h
  | cons kv m ih =>
      intro h
      rw [List.map_cons]
      by_cases hk : kv.1 = k
      · rw [if_pos hk]
        exact List.find?_cons_of_pos _ (by simp)
      · rw [if_neg hk]
        rw [List.find?_cons_of_neg _ (by simp [hk])]
        apply ih
        rw [List.any_cons] at h
        simpa [hk] using h

theorem find?_append_self (k : String) (v : List Row) :
    ∀ m : List (String × List Row), ¬ m.any (fun kv => kv.1 = k) = true →
      (m ++ [(k, v)]).find? (fun kv => kv.1 = k) = some (k, v) := by
  intro m
  induction m with
  | nil =>
      intro _
      exact List.find?_cons_of_pos _ (by simp)
  | cons kv m ih =>
      intro h
      simp only [List.any_cons, Bool.or_eq_true, decide_eq_true_eq, not_or] at h
      rw [List.cons_append, List.find?_cons_of_neg _ (by simp [h.1])]
      apply ih
      simpa using h.2

theorem fmapGet_set_self (m : List (String × List Row)) (k : String) (v : List Row) :
    fmapGet (fmapSet m k v) k = some v := by
  unfold fmapGet fmapSet
  by_cases h : m.any (fun kv => kv.1 = k) = true
  · rw [if_pos h, find?_map_set k v m h]
    rfl
  · rw [if_neg h, find?_append_self k v m h]
    rfl

theorem find?_map_set_other (k k2 : String) (v : List Row) (hne : k2 ≠ k) :
    ∀ m : List (String × List Row),
      (m.map (fun kv => if kv.1 = k then (k, v) else kv)).find? (fun kv => kv.1 = k2) =
        m.find? (fun kv => kv.1 = k2) := by
  intro m
  induction m with
  | nil => rfl
  | cons kv m ih =>
      rw [List.map_cons]
      by_cases hk : kv.1 = k
      · rw [if_pos hk]
        rw [List.find?_cons_of_neg _ (by simp [Ne.symm hne]),
          List.find?_cons_of_neg _ (by simp [hk, Ne.symm hne])]
        exact ih
      · rw [if_neg hk]
        by_cases h2 : kv.1 = k2
        · rw [List.find?_cons_of_pos _ (by simp [h2]),
            List.find?_cons_of_pos _ (by simp [h2])]
        · rw [List.find?_cons_of_neg _ (by simp [h2]),
            List.find?_cons_of_neg _ (by simp [h2])]
          exact ih

theorem find?_append_other (k k2 : String) (v : List Row) (hne : k2 ≠ k) :
    ∀ m : List (String × List Row),
      (m ++ [(k, v)]).find? (fun kv => kv.1 = k2) = m.find? (fun kv => kv.1 = k2) := by
  intro m
  induction m with
  | nil =>
      show List.find? _ ((k, v) :: []) = none
      rw [List.find?_cons_of_neg _ (by simp [Ne.symm hne])]
      rfl
  | cons kv m ih =>
      rw [List.cons_append]
      by_cases h2 : kv.1 = k2
      · rw [List.find?_cons_of_pos _ (by simp [h2]),
          List.find?_cons_of_pos _ (by simp [h2])]
      · rw [List.find?_cons_of_neg _ (by simp [h2]),
          List.find?_cons_of_neg _ (by simp [h2])]
        exact ih

theorem fmapGet_set_other (m : List (String × List Row)) (k k2 : String)
    (v : List Row) (hne : k2 ≠ k) : fmapGet (fmapSet m k v) k2 = fmapGet m k2 := by
  unfold fmapGet fmapSet
  by_cases h : m.any (fun kv => kv.1 = k) = true
  · rw [if_pos h, find?_map_set_other k k2 v hne m]
  · rw [if_neg h, find?_append_other k k2 v hne m]

theorem Q.lt_trans' {a b c : Q} (h1 : a < b) (h2 : b < c) : a < c :=
  (Q.lt_iff _ _).mpr (lt_trans ((Q.lt_iff _ _).mp h1) ((Q.lt_iff _ _).mp h2))

theorem findBestKeyPair_spec (pks : List KeyCand) {b : KeyCand × KeyCand × Q}
    (h : findBestKeyPair pks = some b) :
    b.1 ∈ pks ∧ b.2.1 ∈ pks ∧ b.1.fileId ≠ b.2.1.fileId ∧
      (0.7 : Q) < b.2.2 ∧ b.2.2 = nameSimilarity b.1.cleanedName b.2.1.cleanedName := by
  unfold findBestKeyPair at h
  suffices hgen : ∀ (l : List (KeyCand × KeyCand)) (acc : Option (KeyCand × KeyCand × Q)),
      (∀ p ∈ l, p.1 ∈ pks ∧ p.2 ∈ pks) →
      (∀ b0 : KeyCand × KeyCand × Q, acc = some b0 → b0.1 ∈ pks ∧ b0.2.1 ∈ pks ∧
        b0.1.fileId ≠ b0.2.1.fileId ∧ (0.7 : Q) < b0.2.2 ∧
        b0.2.2 = nameSimilarity b0.1.cleanedName b0.2.1.cleanedName) →
      ∀ b0 : KeyCand × KeyCand × Q,
        l.foldl (fun best pair =>
          if pair.1.fileId ≠ pair.2.fileId then
            let score := nameSimilarity pair.1.cleanedName pair.2.cleanedName
            let maxScore := match best with
              | none => (0.7 : Q)
              | some b => b.2.2
            if maxScore < score then some (pair.1, pair.2, score) else best
          else best) acc = some b0 →
        b0.1 ∈ pks ∧ b0.2.1 ∈ pks ∧ b0.1.fileId ≠ b0.2.1.fileId ∧
          (0.7 : Q) < b0.2.2 ∧
          b0.2.2 = nameSimilarity b0.1.cleanedName b0.2.1.cleanedName by
    refine hgen _ none ?_ (by intro b0 hb0; cases hb0) b h
    intro p hp
    obtain ⟨ik, hik, hp2⟩ := List.mem_flatMap.mp hp
    obtain ⟨k2, hk2, hpe⟩ := List.mem_map.mp hp2
    subst hpe
    constructor
    · have hmem := List.mem_enum hik
      show ik.2 ∈ pks
      rw [hmem.2]
      exact List.getElem_mem _
    · exact List.mem_of_mem_drop hk2
  intro l
  induction l with
  | nil =>
      intro acc _ hacc b0 hb0
      exact hacc b0 hb0
  | cons p l ih =>
      intro acc hsub hacc
      rw [List.foldl_cons]
      apply ih _ (fun x hx => hsub x (List.mem_cons_of_mem _ hx))
      intro b0 hb0
      by_cases hf : p.1.fileId ≠ p.2.fileId
      · cases acc with
        | none =>
            simp only [if_pos hf] at hb0
            by_cases hs : (0.7:Q) < nameSimilarity p.1.cleanedName p.2.cleanedName
            · rw [if_pos hs] at hb0
              obtain hb0 := Option.some.inj hb0
              subst hb0
              exact ⟨(hsub p (List.mem_cons_self _ _)).1,
                (hsub p (List.mem_cons_self _ _)).2, hf, hs, rfl⟩
            · rw [if_neg hs] at hb0
              cases hb0
        | some b1 =>
            simp only [if_pos hf] at hb0
            have hprops := hacc b1 rfl
            by_cases hs : b1.2.2 < nameSimilarity p.1.cleanedName p.2.cleanedName
            · rw [if_pos hs] at hb0
              obtain hb0 := Option.some.inj hb0
              subst hb0
              exact ⟨(hsub p (List.mem_cons_self _ _)).1,
                (hsub p (List.mem_cons_self _ _)).2, hf,
                Q.lt_trans' hprops.2.2.2.1 hs, rfl⟩
            · rw [if_neg hs] at hb0
              obtain hb0 := Option.some.inj hb0
              subst hb0
              exact hprops
      · rw [if_neg hf] at hb0
        exact hacc b0 hb0


/-- C9: given fewer than 2 files, generateMatches returns an empty match list
and an empty unmatched list, a no-op rather than an error, even when the
single input file has columns. -/
theorem c9_fewer_than_two_noop (files : List UploadedFile) (h : files.length < 2) :
    (generateMatches files).matches' = [] ∧ (generateMatches files).unmatched = [] := by
  unfold generateMatches
  rw [if_pos h]
  exact ⟨rfl, rfl⟩

set_option maxRecDepth 100000 in
theorem c9_witness :
    ([{ id := "fA", name := "a.csv", columns := [txnCol] }] :
        List UploadedFile).length < 2 ∧
      ((generateMatches [{ id := "fA", name := "a.csv", columns := [txnCol] }]).matches' =
          [] ∧
        (generateMatches [{ id := "fA", name := "a.csv", columns := [txnCol] }]).unmatched =
          []) :=
  ⟨by decide, c9_fewer_than_two_noop _ (by decide)⟩

/-- C5: the engine is a pure function of its input: two runs on identical
inputs return identical results, including the order of matches and of
unmatched columns. -/
theorem c5_deterministic (files1 files2 : List UploadedFile) (h : files1 = files2) :
    generateMatches files1 = generateMatches files2 ∧
      (generateMatches files1).matches' = (generateMatches files2).matches' ∧
      (generateMatches files1).unmatched = (generateMatches files2).unmatched := by
  subst h
  exact ⟨rfl, rfl, rfl⟩

theorem c5_witness :
    wFiles = wFiles ∧
      (generateMatches wFiles = generateMatches wFiles ∧
        (generateMatches wFiles).matches' = (generateMatches wFiles).matches' ∧
        (generateMatches wFiles).unmatched = (generateMatches wFiles).unmatched) :=
  ⟨rfl, c5_deterministic wFiles wFiles rfl⟩

/-- C10: every emitted match's aggregate confidence is strictly above the 0.65
acceptance threshold and at most 1: the match's cluster holds at least one
accepted pair with both endpoints inside it, every accepted pair scores in
(0.65, 1], and the aggregate is the mean of the in-cluster accepted scores. -/
theorem c10_confidence_range (files : List UploadedFile) (m : Match)
    (hm : m ∈ (generateMatches files).matches') :
    (0.65 : Q) < m.programmaticConfidence ∧ m.programmaticConfidence ≤ 1 := by
  by_cases h2 : files.length < 2
  · rw [generateMatches_small files h2] at hm
    exact absurd hm (List.not_mem_nil _)
  · obtain ⟨ic, hic, hme⟩ := matches_from_cluster files h2 hm
    subst hme
    have hinv := (buildClusters_spec
      ((mkBestPairs (profilesOf files)).map (fun kv => kv.1)) (fun _ => (0:ℕ))
      (fun _ _ => rfl)).1
    exact mkMatch_confidence (profilesOf files) ic.2.2 (hinv.founder ic.2 hic) ic.1

set_option maxRecDepth 1000000 in
theorem c10_witness :
    (0.65 : Q) <
        ((generateMatches wFiles).matches'.headD dummyMatch).programmaticConfidence ∧
      ((generateMatches wFiles).matches'.headD dummyMatch).programmaticConfidence ≤ 1 :=
  c10_confidence_range wFiles _ (by decide)

/-- C6: nameSimilarity equals 1 minus the classic Levenshtein edit distance
divided by the longer length, always lies in [0, 1], and is 1 on two empty
strings.  `levClassic` is the textbook single-character
insert/delete/substitute recurrence, and `levenshtein` (the code's matrix) is
proved equal to it elsewhere in this file. -/
theorem c6_name_similarity (s1 s2 : String) :
    (nameSimilarity s1 s2).toRat =
      (if max s1.length s2.length = 0 then 1 else
        1 - (levClassic s1.toList s2.toList : ℚ) / ((max s1.length s2.length : ℕ) : ℚ)) ∧
    (0 : Q) ≤ nameSimilarity s1 s2 ∧ nameSimilarity s1 s2 ≤ 1 ∧
    nameSimilarity "" "" = 1 := by
  refine ⟨?_, (nameSimilarity_bounds s1 s2).1, (nameSimilarity_bounds s1 s2).2, by decide⟩
  simp only [nameSimilarity]
  by_cases h : max s1.length s2.length = 0
  · rw [if_pos h, if_pos h, Q.toRat_one]
  · rw [if_neg h, if_neg h, Q.toRat_sub, Q.toRat_one, Q.toRat_div, Q.toRat_ofN,
      Q.toRat_ofN, levenshtein_eq_levClassic]


/-- C1 (amended): the data-type hard gate is unconditional: differing source
data types give confidence 0.  And, provided every column key
`fileId + "-" + originalName` is unique and pipe-free (KeysOK — the code's
bookkeeping can conflate columns when keys collide, see the counterexample),
no emitted match has two member columns whose source columns' data types
differ. -/
theorem c1_type_gate (files : List UploadedFile) (H : KeysOK files) :
    (∀ p1 p2 : ColumnProfile, p1.source.dataType ≠ p2.source.dataType →
      calculateConfidence p1 p2 = 0) ∧
    (∀ m ∈ (generateMatches files).matches', ∀ cm1 ∈ m.columns, ∀ cm2 ∈ m.columns,
      ∀ c1 ∈ allColumnsOf files, ∀ c2 ∈ allColumnsOf files,
        cm1.fileId = c1.fileId → cm1.columnName = c1.originalName →
        cm2.fileId = c2.fileId → cm2.columnName = c2.originalName →
        c1.dataType = c2.dataType) := by
  refine ⟨calcConf_type_gate, ?_⟩
  intro m hm cm1 hcm1 cm2 hcm2 c1 hc1 c2 hc2 hf1 hn1 hf2 hn2
  by_cases h2 : files.length < 2
  · rw [generateMatches_small files h2] at hm
    exact absurd hm (List.not_mem_nil _)
  · obtain ⟨ic, hic, hme⟩ := matches_from_cluster files h2 hm
    subst hme
    rw [mkMatch_columns] at hcm1 hcm2
    obtain ⟨k1, hk1, he1⟩ := List.mem_map.mp hcm1
    obtain ⟨k2, hk2, he2⟩ := List.mem_map.mp hcm2
    obtain ⟨d1, hd1, hkd1⟩ := List.mem_map.mp (cluster_keys_colKeys files H hic k1 hk1)
    obtain ⟨d2, hd2, hkd2⟩ := List.mem_map.mp (cluster_keys_colKeys files H hic k2 hk2)
    have hl1 : lookupProfile (profilesOf files) k1 = createColumnProfile d1 := by
      rw [← hkd1]
      exact lookup_colKey files H hd1
    have hl2 : lookupProfile (profilesOf files) k2 = createColumnProfile d2 := by
      rw [← hkd2]
      exact lookup_colKey files H hd2
    have hfe1 : cm1.fileId = d1.fileId := by
      rw [← he1, hl1]
      rfl
    have hne1 : cm1.columnName = d1.originalName := by
      rw [← he1, hl1]
      rfl
    have hfe2 : cm2.fileId = d2.fileId := by
      rw [← he2, hl2]
      rfl
    have hne2 : cm2.columnName = d2.originalName := by
      rw [← he2, hl2]
      rfl
    have hc1d : c1 = d1 := by
      refine colKey_inj files H hc1 hd1 ?_
      show c1.fileId ++ "-" ++ c1.originalName = d1.fileId ++ "-" ++ d1.originalName
      rw [← hf1, ← hn1, hfe1, hne1]
    have hc2d : c2 = d2 := by
      refine colKey_inj files H hc2 hd2 ?_
      show c2.fileId ++ "-" ++ c2.originalName = d2.fileId ++ "-" ++ d2.originalName
      rw [← hf2, ← hn2, hfe2, hne2]
    have hvc := (clusters_inv files H).val_const ic.2 hic k1 hk1 k2 hk2
    rw [hl1, hl2] at hvc
    rw [hc1d, hc2d]
    exact hvc

set_option maxRecDepth 1000000 in
theorem c1_witness :
    KeysOK wFiles ∧
    ((∀ p1 p2 : ColumnProfile, p1.source.dataType ≠ p2.source.dataType →
        calculateConfidence p1 p2 = 0) ∧
      (∀ m ∈ (generateMatches wFiles).matches', ∀ cm1 ∈ m.columns, ∀ cm2 ∈ m.columns,
        ∀ c1 ∈ allColumnsOf wFiles, ∀ c2 ∈ allColumnsOf wFiles,
          cm1.fileId = c1.fileId → cm1.columnName = c1.originalName →
          cm2.fileId = c2.fileId → cm2.columnName = c2.originalName →
          c1.dataType = c2.dataType)) :=
  ⟨by decide, c1_type_gate wFiles (by decide)⟩

set_option maxRecDepth 1000000 in
/-- C1 is false as stated without a key-uniqueness assumption: in cexFiles1
the number column ("f", "x-y") and the string column ("f-x", "y") share the
key "f-x-y"; the last-written profile shadows the first, and the emitted
match pairs a string member with a number member. -/
theorem c1_counterexample :
    ∃ m ∈ (generateMatches cexFiles1).matches', ∃ cm1 ∈ m.columns, ∃ cm2 ∈ m.columns,
      ∃ c1 ∈ allColumnsOf cexFiles1, ∃ c2 ∈ allColumnsOf cexFiles1,
        cm1.fileId = c1.fileId ∧ cm1.columnName = c1.originalName ∧
        cm2.fileId = c2.fileId ∧ cm2.columnName = c2.originalName ∧
        c1.dataType ≠ c2.dataType := by decide


/-- C2 (amended): with at least two files and unique, pipe-free column keys
(KeysOK — both can fail, see the counterexample), the member columns of all
emitted matches together with the unmatched columns are exactly the input
columns: the two key lists joined form a permutation of the full input key
list, so no column is duplicated or lost. -/
theorem c2_partition (files : List UploadedFile) (H : KeysOK files)
    (h2 : ¬ files.length < 2) :
    (((generateMatches files).matches'.flatMap (fun m => m.columns.map cimKey)) ++
      ((generateMatches files).unmatched.map colKey)).Perm
      ((allColumnsOf files).map colKey) := by
  have hmk := matched_keys_perm files H h2
  have hum : (generateMatches files).unmatched.map colKey =
      ((allColumnsOf files).map colKey).filter (fun k => ¬ k ∈
        (buildClusters ((mkBestPairs (profilesOf files)).map (fun kv => kv.1))).flatMap
          (fun c => c.2)) := by
    rw [generateMatches_unmatched files h2]
    generalize (buildClusters
      ((mkBestPairs (profilesOf files)).map (fun kv => kv.1))).flatMap
        (fun c => c.2) = FK
    generalize allColumnsOf files = l
    induction l with
    | nil => rfl
    | cons c cs ih =>
        rw [List.filter_cons, List.map_cons, List.filter_cons]
        by_cases h : ¬ colKey c ∈ FK
        · rw [if_pos (decide_eq_true h), if_pos (decide_eq_true h), List.map_cons, ih]
        · have hcond : ¬ (decide (¬ colKey c ∈ FK) = true) := by
            simp only [decide_eq_true_eq]
            exact h
          rw [if_neg hcond, if_neg hcond, ih]
  have hinv := clusters_inv files H
  have hFKnd : ((buildClusters
      ((mkBestPairs (profilesOf files)).map (fun kv => kv.1))).flatMap
        (fun c => c.2)).Nodup :=
    flatKeys_nodup _ hinv.nodup hinv.disj
  have hFKsub : ∀ k ∈ (buildClusters
      ((mkBestPairs (profilesOf files)).map (fun kv => kv.1))).flatMap (fun c => c.2),
      k ∈ (allColumnsOf files).map colKey := by
    intro k hk
    obtain ⟨c, hc, hkc⟩ := List.mem_flatMap.mp hk
    exact cluster_keys_colKeys files H hc k hkc
  have hp1 : ((buildClusters
      ((mkBestPairs (profilesOf files)).map (fun kv => kv.1))).flatMap
        (fun c => c.2)).Perm
      (((allColumnsOf files).map colKey).filter (fun k => k ∈
        (buildClusters ((mkBestPairs (profilesOf files)).map (fun kv => kv.1))).flatMap
          (fun c => c.2))) := by
    rw [List.perm_ext_iff_of_nodup hFKnd (H.1.filter _)]
    intro a
    simp only [List.mem_filter, decide_eq_true_eq]
    constructor
    · intro ha
      exact ⟨hFKsub a ha, ha⟩
    · intro ha
      exact ha.2
  have hstep1 := (hmk.append
    (List.Perm.refl ((generateMatches files).unmatched.map colKey))).trans
    ((List.Perm.refl _).append (by rw [hum]))
  refine hstep1.trans ?_
  refine (hp1.append_right _).trans ?_
  have hfe : (((allColumnsOf files).map colKey).filter (fun k => ¬ k ∈
      (buildClusters ((mkBestPairs (profilesOf files)).map (fun kv => kv.1))).flatMap
        (fun c => c.2))) =
      (((allColumnsOf files).map colKey).filter (fun k => !(decide (k ∈
        (buildClusters ((mkBestPairs (profilesOf files)).map (fun kv => kv.1))).flatMap
          (fun c => c.2))))) := by
    apply List.filter_congr
    intro a _
    exact decide_not
  rw [hfe]
  exact List.filter_append_perm _ _

set_option maxRecDepth 1000000 in
theorem c2_witness :
    KeysOK wFiles ∧ ¬ wFiles.length < 2 ∧
      (((generateMatches wFiles).matches'.flatMap (fun m => m.columns.map cimKey)) ++
        ((generateMatches wFiles).unmatched.map colKey)).Perm
        ((allColumnsOf wFiles).map colKey) :=
  ⟨by decide, by decide, c2_partition wFiles (by decide) (by decide)⟩

set_option maxRecDepth 1000000 in
/-- C2 is false as stated when column keys collide: in cexFiles2 the two
columns ("f", "x-y") and ("f-x", "y") share the key "f-x-y"; the run returns
one single-member match and no unmatched columns, so one input column is
lost: the combined output keys are not a permutation of the input keys. -/
theorem c2_counterexample :
    ¬ ((((generateMatches cexFiles2).matches'.flatMap (fun m => m.columns.map cimKey)) ++
        ((generateMatches cexFiles2).unmatched.map colKey)).Perm
        ((allColumnsOf cexFiles2).map colKey)) := by decide

/-- C3 (amended): under unique, pipe-free column keys (KeysOK) and at least
two files, if A-B and B-C both appear as accepted pair keys, then one single
emitted match contains A, B and C as members, and any match containing any of
the three has exactly that match's member columns: the transitive chain puts
all three in the same cluster. -/
theorem c3_transitive_closure (files : List UploadedFile) (H : KeysOK files)
    (h2 : ¬ files.length < 2) (A B C : ColumnData)
    (hA : A ∈ allColumnsOf files) (hB : B ∈ allColumnsOf files)
    (hC : C ∈ allColumnsOf files)
    (hAB : canonicalKey (colKey A) (colKey B) ∈
      (mkBestPairs (profilesOf files)).map (fun kv => kv.1))
    (hBC : canonicalKey (colKey B) (colKey C) ∈
      (mkBestPairs (profilesOf files)).map (fun kv => kv.1)) :
    ∃ m ∈ (generateMatches files).matches',
      colKey A ∈ m.columns.map cimKey ∧ colKey B ∈ m.columns.map cimKey ∧
      colKey C ∈ m.columns.map cimKey ∧
      ∀ m' ∈ (generateMatches files).matches',
        (colKey A ∈ m'.columns.map cimKey ∨ colKey B ∈ m'.columns.map cimKey ∨
          colKey C ∈ m'.columns.map cimKey) → m'.columns = m.columns := by
  have hinv := clusters_inv files H
  have hsAB := splitPair_canonical (colKey A) (colKey B) (H.2 A hA) (H.2 B hB)
  have hsBC := splitPair_canonical (colKey B) (colKey C) (H.2 B hB) (H.2 C hC)
  obtain ⟨c1, hc1, hm1⟩ := clusters_cover files H _ hAB
  obtain ⟨c2, hc2, hm2⟩ := clusters_cover files H _ hBC
  have hAc1 : colKey A ∈ c1.2 ∧ colKey B ∈ c1.2 := by
    rcases hsAB with h | h <;> rw [h] at hm1
    · exact hm1
    · exact ⟨hm1.2, hm1.1⟩
  have hBc2 : colKey B ∈ c2.2 ∧ colKey C ∈ c2.2 := by
    rcases hsBC with h | h <;> rw [h] at hm2
    · exact hm2
    · exact ⟨hm2.2, hm2.1⟩
  have hc12 : c1 = c2 :=
    clusters_shared_eq _ hinv.disj c1 hc1 c2 hc2 (colKey B) hAc1.2 hBc2.1
  obtain ⟨i, hmm⟩ := cluster_to_match files h2 hc1
  have hkeys : (mkMatch (profilesOf files) (mkBestPairs (profilesOf files))
      i c1.2).columns.map cimKey = c1.2 :=
    match_columns_keys files H (cluster_keys_colKeys files H hc1) _ i
  refine ⟨mkMatch (profilesOf files) (mkBestPairs (profilesOf files)) i c1.2,
    hmm, ?_, ?_, ?_, ?_⟩
  · rw [hkeys]
    exact hAc1.1
  · rw [hkeys]
    exact hAc1.2
  · rw [hkeys, hc12]
    exact hBc2.2
  · intro m' hm' hshare
    obtain ⟨ic, hic, hme⟩ := matches_from_cluster files h2 hm'
    have hkeys' : m'.columns.map cimKey = ic.2.2 := by
      rw [hme]
      exact match_columns_keys files H (cluster_keys_colKeys files H hic) _ ic.1
    have hshared : ∃ k, k ∈ ic.2.2 ∧ k ∈ c1.2 := by
      rcases hshare with h | h | h
      · exact ⟨colKey A, by rw [← hkeys']; exact h, hAc1.1⟩
      · exact ⟨colKey B, by rw [← hkeys']; exact h, hAc1.2⟩
      · exact ⟨colKey C, by rw [← hkeys']; exact h, by rw [hc12]; exact hBc2.2⟩
    obtain ⟨k, hk1, hk2⟩ := hshared
    have hceq : ic.2 = c1 := clusters_shared_eq _ hinv.disj ic.2 hic c1 hc1 k hk1 hk2
    rw [hme, mkMatch_columns, mkMatch_columns, hceq]

set_option maxRecDepth 1000000 in
theorem c3_witness :
    KeysOK wFiles ∧ ¬ wFiles.length < 2 ∧
      wB ∈ allColumnsOf wFiles ∧ wA ∈ allColumnsOf wFiles ∧ wC ∈ allColumnsOf wFiles ∧
      canonicalKey (colKey wB) (colKey wA) ∈
        (mkBestPairs (profilesOf wFiles)).map (fun kv => kv.1) ∧
      canonicalKey (colKey wA) (colKey wC) ∈
        (mkBestPairs (profilesOf wFiles)).map (fun kv => kv.1) ∧
      (∃ m ∈ (generateMatches wFiles).matches',
        colKey wB ∈ m.columns.map cimKey ∧ colKey wA ∈ m.columns.map cimKey ∧
        colKey wC ∈ m.columns.map cimKey ∧
        ∀ m' ∈ (generateMatches wFiles).matches',
          (colKey wB ∈ m'.columns.map cimKey ∨ colKey wA ∈ m'.columns.map cimKey ∨
            colKey wC ∈ m'.columns.map cimKey) → m'.columns = m.columns) :=
  ⟨by decide, by decide, by decide, by decide, by decide, by decide, by decide,
    c3_transitive_closure wFiles (by decide) (by decide) wB wA wC (by decide)
      (by decide) (by decide) (by decide) (by decide)⟩

set_option maxRecDepth 1000000 in
/-- C3 is false as stated when column keys collide: in cexFiles3 the pairs
(c3B, c3A) and (c3A, c3C) are both accepted, but c3C's key "g-x-y" is
shadowed by c3D ("g-x", "y"), so no emitted match contains members for all
three of c3B, c3A and c3C. -/
theorem c3_counterexample :
    canonicalKey (colKey c3B) (colKey c3A) ∈
      (mkBestPairs (profilesOf cexFiles3)).map (fun kv => kv.1) ∧
    canonicalKey (colKey c3A) (colKey c3C) ∈
      (mkBestPairs (profilesOf cexFiles3)).map (fun kv => kv.1) ∧
    ¬ ∃ m ∈ (generateMatches cexFiles3).matches',
        (∃ cm ∈ m.columns, cm.fileId = c3B.fileId ∧ cm.columnName = c3B.originalName) ∧
        (∃ cm ∈ m.columns, cm.fileId = c3A.fileId ∧ cm.columnName = c3A.originalName) ∧
        (∃ cm ∈ m.columns, cm.fileId = c3C.fileId ∧ cm.columnName = c3C.originalName) := by
  decide

/-- C4 (amended): under unique, pipe-free column keys (KeysOK — a key
collision can produce a single-member match, see the counterexample), every
emitted match has at least 2 member columns, members from at least 2 distinct
files, and no column (fileId, columnName) is a member of two matches. -/
theorem c4_fanout_disjoint (files : List UploadedFile) (H : KeysOK files) :
    (∀ m ∈ (generateMatches files).matches',
      2 ≤ m.columns.length ∧
      ∃ cm1 ∈ m.columns, ∃ cm2 ∈ m.columns, cm1.fileId ≠ cm2.fileId) ∧
    List.Pairwise (fun m1 m2 => ∀ cm1 ∈ m1.columns, ∀ cm2 ∈ m2.columns,
      cm1.fileId ≠ cm2.fileId ∨ cm1.columnName ≠ cm2.columnName)
      (generateMatches files).matches' := by
  by_cases h2 : files.length < 2
  · rw [generateMatches_small files h2]
    constructor
    · intro m hm
      exact absurd hm (List.not_mem_nil _)
    · exact List.Pairwise.nil
  · constructor
    · intro m hm
      obtain ⟨ic, hic, hme⟩ := matches_from_cluster files h2 hm
      have hinv := clusters_inv files H
      obtain ⟨pk, hpk, hp1, hp2⟩ := hinv.founder ic.2 hic
      obtain ⟨cp, cq, hcp, hcq, hfne, _, hsp⟩ := pairKeys_endpoints files H pk hpk
      have hkcp : colKey cp ∈ ic.2.2 ∧ colKey cq ∈ ic.2.2 := by
        rcases hsp with h | h
        · rw [h.1] at hp1
          rw [h.2] at hp2
          exact ⟨hp1, hp2⟩
        · rw [h.1] at hp1
          rw [h.2] at hp2
          exact ⟨hp2, hp1⟩
      have hkne : colKey cp ≠ colKey cq := by
        intro he
        have hpq := colKey_inj files H hcp hcq he
        rw [hpq] at hfne
        exact hfne rfl
      constructor
      · rw [hme, mkMatch_columns, List.length_map]
        exact two_le_length_of_ne hkcp.1 hkcp.2 hkne
      · rw [hme, mkMatch_columns]
        refine ⟨_, List.mem_map_of_mem _ hkcp.1, _, List.mem_map_of_mem _ hkcp.2, ?_⟩
        rw [lookup_colKey files H hcp, lookup_colKey files H hcq]
        intro h
        exact hfne ((show cp.fileId = cq.fileId from h).symm)
    · rw [generateMatches_matches files h2]
      have hsym : Symmetric (fun m1 m2 : Match =>
          ∀ cm1 ∈ m1.columns, ∀ cm2 ∈ m2.columns,
            cm1.fileId ≠ cm2.fileId ∨ cm1.columnName ≠ cm2.columnName) := by
        intro m1 m2 h cm1 h1 cm2 h2'
        rcases h cm2 h2' cm1 h1 with h' | h'
        · exact Or.inl (Ne.symm h')
        · exact Or.inr (Ne.symm h')
      rw [(sortDescending_perm _).pairwise_iff (fun {a b} h => hsym h)]
      rw [List.pairwise_map]
      have hinv := clusters_inv files H
      have hpw := enum_pairwise hinv.disj
      refine List.Pairwise.imp_of_mem ?_ hpw
      intro ic1 ic2 hic1 hic2 hd cm1 hcm1 cm2 hcm2
      have hc1 : ic1.2 ∈ buildClusters
          ((mkBestPairs (profilesOf files)).map (fun kv => kv.1)) := by
        have hmem := List.mem_enum hic1
        rw [hmem.2]
        exact List.getElem_mem _
      have hc2 : ic2.2 ∈ buildClusters
          ((mkBestPairs (profilesOf files)).map (fun kv => kv.1)) := by
        have hmem := List.mem_enum hic2
        rw [hmem.2]
        exact List.getElem_mem _
      rw [mkMatch_columns] at hcm1 hcm2
      obtain ⟨k1, hk1, he1⟩ := List.mem_map.mp hcm1
      obtain ⟨k2, hk2, he2⟩ := List.mem_map.mp hcm2
      have hr1 : cimKey cm1 = k1 := by
        rw [← he1]
        exact lookup_key_recover files H (cluster_keys_colKeys files H hc1 k1 hk1)
      have hr2 : cimKey cm2 = k2 := by
        rw [← he2]
        exact lookup_key_recover files H (cluster_keys_colKeys files H hc2 k2 hk2)
      by_contra hcon
      push_neg at hcon
      have hkk : k1 = k2 := by
        rw [← hr1, ← hr2]
        unfold cimKey
        rw [hcon.1, hcon.2]
      rw [hkk] at hk1
      exact hd k2 hk1 hk2

set_option maxRecDepth 1000000 in
theorem c4_witness :
    KeysOK wFiles ∧
      ((∀ m ∈ (generateMatches wFiles).matches',
        2 ≤ m.columns.length ∧
        ∃ cm1 ∈ m.columns, ∃ cm2 ∈ m.columns, cm1.fileId ≠ cm2.fileId) ∧
      List.Pairwise (fun m1 m2 => ∀ cm1 ∈ m1.columns, ∀ cm2 ∈ m2.columns,
        cm1.fileId ≠ cm2.fileId ∨ cm1.columnName ≠ cm2.columnName)
        (generateMatches wFiles).matches') :=
  ⟨by decide, c4_fanout_disjoint wFiles (by decide)⟩

set_option maxRecDepth 1000000 in
/-- C4 is false as stated when column keys collide: in cexFiles2 both columns
share the key "f-x-y", and the run emits a match with a single member column. -/
theorem c4_counterexample :
    ∃ m ∈ (generateMatches cexFiles2).matches', m.columns.length < 2 := by decide


theorem toRat_05 : (0.5 : Q).toRat = 1/2 := by
  show (OfScientific.ofScientific 5 true 1 : Q).toRat = 1/2
  rw [Q.toRat_scientific_true]
  norm_num

theorem toRat_02 : (0.2 : Q).toRat = 1/5 := by
  show (OfScientific.ofScientific 2 true 1 : Q).toRat = 1/5
  rw [Q.toRat_scientific_true]
  norm_num

theorem toRat_03 : (0.3 : Q).toRat = 3/10 := by
  show (OfScientific.ofScientific 3 true 1 : Q).toRat = 3/10
  rw [Q.toRat_scientific_true]
  norm_num

set_option maxRecDepth 1000000 in
/-- C7: for same-type number columns with computable stats that are not both
high-uniqueness, the confidence is 0.2·nameSim when the scale similarity
1 − min(1, |Δ orderOfMagnitude| / 5) is below 0.5, and
0.5·nameSim + 0.3·shapeSim + 0.2·scaleSim otherwise; and the
transaction_amount / account_balance scenario takes the penalized branch,
scoring exactly 0.2·nameSim, fails the 0.65 threshold, and both columns come
out unmatched. -/
theorem c7_numeric_rule (p1 p2 : ColumnProfile) (s1 s2 : NumericStats)
    (h : p1.source.dataType = DataType.number ∧ p2.source.dataType = DataType.number ∧
      ¬ ((0.9:Q) < p1.uniquenessRatio ∧ (0.9:Q) < p2.uniquenessRatio) ∧
      p1.numericStats = some s1 ∧ p2.numericStats = some s2) :
    ((calculateConfidence p1 p2).toRat =
      (if 1 - min 1 (((s1.orderOfMagnitude - s2.orderOfMagnitude).natAbs : ℚ) / 5) <
          1/2 then
        max (nameSimilarity p1.baseName p2.baseName).toRat
          (nameSimilarity p1.cleanedName p2.cleanedName).toRat * (1/5)
      else
        max (nameSimilarity p1.baseName p2.baseName).toRat
          (nameSimilarity p1.cleanedName p2.cleanedName).toRat * (1/2) +
        (1 - min 1 |(if s1.mean ≠ 0 then s1.stddev.toRat / s1.mean.toRat else 0) -
          (if s2.mean ≠ 0 then s2.stddev.toRat / s2.mean.toRat else 0)|) * (3/10) +
        (1 - min 1 (((s1.orderOfMagnitude - s2.orderOfMagnitude).natAbs : ℚ) / 5)) *
          (1/5))) ∧
    calculateConfidence txnProf balProf =
      max (nameSimilarity txnProf.baseName balProf.baseName)
        (nameSimilarity txnProf.cleanedName balProf.cleanedName) * 0.2 ∧
    ¬ (0.65 : Q) < calculateConfidence txnProf balProf ∧
    (generateMatches scenFiles).matches' = [] ∧
    (generateMatches scenFiles).unmatched = [txnCol, balCol] := by
  obtain ⟨ht1, ht2, hu, hs1, hs2⟩ := h
  refine ⟨?_, by decide, by decide, by decide, by decide⟩
  have hsc : ((1 : Q) -
      min 1 (Q.ofN (s1.orderOfMagnitude - s2.orderOfMagnitude).natAbs / 5)).toRat =
      1 - min 1 (((s1.orderOfMagnitude - s2.orderOfMagnitude).natAbs : ℚ) / 5) := by
    rw [Q.toRat_sub, Q.toRat_one, Q.toRat_min, Q.toRat_one, Q.toRat_div, Q.toRat_ofN,
      Q.toRat_ofNat]
    norm_num
  have hns : (max (nameSimilarity p1.baseName p2.baseName)
      (nameSimilarity p1.cleanedName p2.cleanedName)).toRat =
      max (nameSimilarity p1.baseName p2.baseName).toRat
        (nameSimilarity p1.cleanedName p2.cleanedName).toRat := Q.toRat_max _ _
  have hcv : ((1 : Q) - min 1 ((if s1.mean ≠ 0 then s1.stddev / s1.mean else 0) -
      (if s2.mean ≠ 0 then s2.stddev / s2.mean else 0)).abs).toRat =
      1 - min 1 |(if s1.mean ≠ 0 then s1.stddev.toRat / s1.mean.toRat else 0) -
        (if s2.mean ≠ 0 then s2.stddev.toRat / s2.mean.toRat else 0)| := by
    rw [Q.toRat_sub, Q.toRat_one, Q.toRat_min, Q.toRat_one, Q.toRat_abs, Q.toRat_sub,
      apply_ite Q.toRat, apply_ite Q.toRat]
    simp only [Q.toRat_div, Q.toRat_zero]
  simp only [calculateConfidence]
  rw [if_neg (show ¬ (p1.source.dataType ≠ p2.source.dataType) by
    rw [ht1, ht2]
    exact fun hcon => hcon rfl)]
  rw [if_neg (show ¬ (p1.source.dataType = DataType.boolean) by
    rw [ht1]
    exact fun hcon => DataType.noConfusion hcon)]
  rw [if_neg hu]
  simp only [hs1, hs2]
  rw [apply_ite Q.toRat]
  refine if_congr ?_ ?_ ?_
  · rw [Q.lt_iff, toRat_05, hsc]
  · rw [Q.toRat_mul, hns, toRat_02]
  · rw [Q.toRat_add, Q.toRat_add, Q.toRat_mul, Q.toRat_mul, Q.toRat_mul, hns, hcv, hsc,
      toRat_05, toRat_03, toRat_02]

set_option maxRecDepth 1000000 in
theorem c7_witness :
    (txnProf.source.dataType = DataType.number ∧
      balProf.source.dataType = DataType.number ∧
      ¬ ((0.9:Q) < txnProf.uniquenessRatio ∧ (0.9:Q) < balProf.uniquenessRatio) ∧
      txnProf.numericStats = some txnStats ∧ balProf.numericStats = some balStats) ∧
    (((calculateConfidence txnProf balProf).toRat =
      (if 1 - min 1 (((txnStats.orderOfMagnitude - balStats.orderOfMagnitude).natAbs :
          ℚ) / 5) < 1/2 then
        max (nameSimilarity txnProf.baseName balProf.baseName).toRat
          (nameSimilarity txnProf.cleanedName balProf.cleanedName).toRat * (1/5)
      else
        max (nameSimilarity txnProf.baseName balProf.baseName).toRat
          (nameSimilarity txnProf.cleanedName balProf.cleanedName).toRat * (1/2) +
        (1 - min 1 |(if txnStats.mean ≠ 0 then
            txnStats.stddev.toRat / txnStats.mean.toRat else 0) -
          (if balStats.mean ≠ 0 then
            balStats.stddev.toRat / balStats.mean.toRat else 0)|) * (3/10) +
        (1 - min 1 (((txnStats.orderOfMagnitude - balStats.orderOfMagnitude).natAbs :
          ℚ) / 5)) * (1/5))) ∧
    calculateConfidence txnProf balProf =
      max (nameSimilarity txnProf.baseName balProf.baseName)
        (nameSimilarity txnProf.cleanedName balProf.cleanedName) * 0.2 ∧
    ¬ (0.65 : Q) < calculateConfidence txnProf balProf ∧
    (generateMatches scenFiles).matches' = [] ∧
    (generateMatches scenFiles).unmatched = [txnCol, balCol]) :=
  ⟨by decide, c7_numeric_rule txnProf balProf txnStats balStats (by decide)⟩


/-- C8: once the aligner has selected a winning cross-file key pair `b`
(cleaned-name similarity strictly above 0.7), alignment succeeds iff the two
tables share at least 11 common key values; with 10 or fewer the result is a
failure whose message carries the common-key count; and on success both
tables' rows are replaced by the rows of the common keys, in the order the
keys occur on the first table's side. -/
theorem c8_row_aligner (ifiles : List IntermediateFile) (b : KeyCand × KeyCand × Q)
    (hb : findBestKeyPair (potentialKeys ifiles) = some b) :
    (0.7 : Q) < b.2.2 ∧ b.1.fileId ≠ b.2.1.fileId ∧
    b.2.2 = nameSimilarity b.1.cleanedName b.2.1.cleanedName ∧
    ((alignRows ifiles).1.success = true ↔
      11 ≤ (commonKeysOf (alignMap1 ifiles b) (alignMap2 ifiles b)).length) ∧
    ((commonKeysOf (alignMap1 ifiles b) (alignMap2 ifiles b)).length ≤ 10 →
      (alignRows ifiles).1.success = false ∧
      (alignRows ifiles).1.message = "Found potential key columns (\"" ++ b.1.header ++
        "\" and \"" ++ b.2.1.header ++ "\") but they had too few common values (" ++
        toString (commonKeysOf (alignMap1 ifiles b) (alignMap2 ifiles b)).length ++
        ") to align rows confidently.") ∧
    (11 ≤ (commonKeysOf (alignMap1 ifiles b) (alignMap2 ifiles b)).length →
      fmapGet (alignRows ifiles).2 b.1.fileId =
        some ((commonKeysOf (alignMap1 ifiles b) (alignMap2 ifiles b)).map
          (fun k => (mapGet (alignMap1 ifiles b) k).getD emptyRow)) ∧
      fmapGet (alignRows ifiles).2 b.2.1.fileId =
        some ((commonKeysOf (alignMap1 ifiles b) (alignMap2 ifiles b)).map
          (fun k => (mapGet (alignMap2 ifiles b) k).getD emptyRow))) := by
  obtain ⟨hm1, hm2, hfid, hsc, hsim⟩ := findBestKeyPair_spec (potentialKeys ifiles) hb
  refine ⟨hsc, hfid, hsim, ?_⟩
  have e1 : mapFromRows ((fmapGet (ifiles.foldl (fun m f => fmapSet m f.id f.rawData)
      []) b.1.fileId).getD []) b.1.header = alignMap1 ifiles b := rfl
  have e2 : mapFromRows ((fmapGet (ifiles.foldl (fun m f => fmapSet m f.id f.rawData)
      []) b.2.1.fileId).getD []) b.2.1.header = alignMap2 ifiles b := rfl
  simp only [alignRows, hb]
  rw [e1, e2]
  by_cases hlen :
      10 < (commonKeysOf (alignMap1 ifiles b) (alignMap2 ifiles b)).length
  · rw [if_pos hlen]
    refine ⟨⟨fun _ => by omega, fun _ => rfl⟩, ?_, ?_⟩
    · intro hle
      exact absurd hle (by omega)
    · intro h11
      constructor
      · show fmapGet (fmapSet (fmapSet (ifiles.foldl
            (fun m f => fmapSet m f.id f.rawData) []) b.1.fileId _) b.2.1.fileId _)
            b.1.fileId = _
        rw [fmapGet_set_other _ _ _ _ hfid, fmapGet_set_self]
      · show fmapGet (fmapSet (fmapSet (ifiles.foldl
            (fun m f => fmapSet m f.id f.rawData) []) b.1.fileId _) b.2.1.fileId _)
            b.2.1.fileId = _
        rw [fmapGet_set_self]
  · rw [if_neg hlen]
    refine ⟨⟨fun hcon => absurd hcon Bool.false_ne_true, fun h11 => absurd h11 (by omega)⟩,
      ?_, ?_⟩
    · intro _
      exact ⟨rfl, rfl⟩
    · intro h11
      exact absurd h11 (by omega)

set_option maxRecDepth 1000000 in
theorem c8_witness :
    (0.7 : Q) < bestKey13.2.2 ∧ bestKey13.1.fileId ≠ bestKey13.2.1.fileId ∧
    bestKey13.2.2 = nameSimilarity bestKey13.1.cleanedName bestKey13.2.1.cleanedName ∧
    ((alignRows [if1, if3]).1.success = true ↔
      11 ≤ (commonKeysOf (alignMap1 [if1, if3] bestKey13)
        (alignMap2 [if1, if3] bestKey13)).length) ∧
    ((commonKeysOf (alignMap1 [if1, if3] bestKey13)
        (alignMap2 [if1, if3] bestKey13)).length ≤ 10 →
      (alignRows [if1, if3]).1.success = false ∧
      (alignRows [if1, if3]).1.message = "Found potential key columns (\"" ++
        bestKey13.1.header ++ "\" and \"" ++ bestKey13.2.1.header ++
        "\") but they had too few common values (" ++
        toString (commonKeysOf (alignMap1 [if1, if3] bestKey13)
          (alignMap2 [if1, if3] bestKey13)).length ++
        ") to align rows confidently.") ∧
    (11 ≤ (commonKeysOf (alignMap1 [if1, if3] bestKey13)
        (alignMap2 [if1, if3] bestKey13)).length →
      fmapGet (alignRows [if1, if3]).2 bestKey13.1.fileId =
        some ((commonKeysOf (alignMap1 [if1, if3] bestKey13)
          (alignMap2 [if1, if3] bestKey13)).map
          (fun k => (mapGet (alignMap1 [if1, if3] bestKey13) k).getD emptyRow)) ∧
      fmapGet (alignRows [if1, if3]).2 bestKey13.2.1.fileId =
        some ((commonKeysOf (alignMap1 [if1, if3] bestKey13)
          (alignMap2 [if1, if3] bestKey13)).map
          (fun k => (mapGet (alignMap2 [if1, if3] bestKey13) k).getD emptyRow))) :=
  c8_row_aligner [if1, if3] bestKey13 (by decide)



end TU